import Mathlib

/-!
# A verification model of the dogear two-way bookmark tree merger

This file embeds `src/merge.rs` — the two-way merger of the `dogear`
bookmark-sync library — as executable Lean definitions, and proves
properties of the merge algorithm against them.

Conventions of the embedding:

* `Guid` is modelled as `Nat` (the source type is an opaque, equality-and-hash
  comparable 12-byte value; only equality and hashing are used by the merger).
* Rust `HashSet<Guid>` becomes a duplicate-free `List Guid` built with
  `insertG`; `HashMap` becomes an association list.  The merger only ever
  tests membership and inserts, so iteration order is observationally
  irrelevant except for the public deletion iterator, whose claims are
  order-independent.
* The `u64` telemetry counters become `Nat`: the merger only ever adds one,
  and a wrap of a 64-bit counter is unreachable for any input a host could
  build, so modular arithmetic is not modelled.
* The mutually recursive merge walk is given an explicit `fuel` argument and
  a distinguished `MergeError.outOfFuel` result, so that every function is
  structurally recursive on `fuel` and computes inside the kernel.  For any
  given input a large enough fuel makes `outOfFuel` unreachable.
* Rust `.expect(...)` panics on missing parents (a "programmer error" per the
  design, reachable only from malformed trees) are modelled as the
  distinguished error `MergeError.missingParent`.
* The input tree and node types live in the repository's `tree.rs`, which is
  not part of the sources under review; those definitions are modelled from
  the specification as noted on each declaration.
-/

namespace Dogear

/-- Bookmark identifier.  The source `Guid` is opaque and only compared for
equality / used as a hash key by the merger, so `Nat` is a faithful model. -/
abbrev Guid := Nat

/-- Content fingerprint used for deduping.  Modelled from the spec: an opaque
equality-and-hash-comparable value; `Nat` keeps exactly that structure. -/
abbrev Content := Nat

/-- Modelled from the spec: the finite enum of item kinds (`tree.rs` is not in
`src/`).  The exact inventory is irrelevant to the merger; it only needs a
folder kind, at least one non-folder kind, and a compatibility relation. -/
inductive Kind where
  | bookmark
  | query
  | folder
  | livemark
  | separator
deriving DecidableEq

/-- Modelled from the spec: `has_compatible_kind` is reflexive and symmetric,
and some distinct kinds are pairwise compatible (bookmark/query as the ones
that share a URL, folder/livemark as the container-ish pair). -/
def hasCompatibleKind (a b : Kind) : Bool :=
  match a, b with
  | .bookmark, .query => true
  | .query, .bookmark => true
  | .folder, .livemark => true
  | .livemark, .folder => true
  | _, _ => decide (a = b)

/-- `StructureChange`: is a node on one side moved or deleted on the other. -/
inductive StructureChange where
  | unchanged
  | moved
  | deleted
deriving DecidableEq

/-- `StructureCounts`: the five telemetry counters. -/
structure StructureCounts where
  remoteRevives : Nat
  localDeletes : Nat
  localRevives : Nat
  remoteDeletes : Nat
  dupes : Nat
deriving DecidableEq

def StructureCounts.zero : StructureCounts := ⟨0, 0, 0, 0, 0⟩

/-- An accepted local or remote deletion, as yielded by the public
`deletions()` iterator. -/
structure Deletion where
  guid : Guid
  localLevel : Int
  shouldUploadTombstone : Bool
deriving DecidableEq

/-- `ConflictResolution`: which side to take in a merge conflict. -/
inductive ConflictResolution where
  | clocal
  | cremote
  | cunchanged
deriving DecidableEq

/-- The merger's error taxonomy, plus the two artifacts of the embedding:
`outOfFuel` (the fuel ran out; unreachable for sufficient fuel) and
`missingParent` (the source's `.expect` panic on a malformed tree). -/
inductive MergeError where
  | mismatchedItemKind (localKind remoteKind : Kind)
  | generateGuid (invalidGuid : Guid)
  | missingParent
  | outOfFuel
deriving DecidableEq

abbrev EM (α : Type) := Except MergeError α

/-- Modelled from the spec: an input tree node (`tree.rs` is not in `src/`).
A node carries its guid, kind, age (smaller is newer), the `needs_merge`,
`diverged`, `is_syncable`, `is_user_content_root` and `is_root` flags, and its
ordered children.  Parent navigation is recovered by searching the tree. -/
inductive TNode where
  | mk (guid : Guid) (kind : Kind) (age : Nat)
       (needsMerge : Bool) (diverged : Bool) (isSyncable : Bool)
       (isUserContentRoot : Bool) (isRoot : Bool)
       (children : List TNode)

def TNode.guid : TNode → Guid
  | .mk g _ _ _ _ _ _ _ _ => g

def TNode.kind : TNode → Kind
  | .mk _ k _ _ _ _ _ _ _ => k

def TNode.age : TNode → Nat
  | .mk _ _ a _ _ _ _ _ _ => a

def TNode.needsMerge : TNode → Bool
  | .mk _ _ _ nm _ _ _ _ _ => nm

def TNode.diverged : TNode → Bool
  | .mk _ _ _ _ dv _ _ _ _ => dv

def TNode.isSyncable : TNode → Bool
  | .mk _ _ _ _ _ sy _ _ _ => sy

def TNode.isUserContentRoot : TNode → Bool
  | .mk _ _ _ _ _ _ uc _ _ => uc

def TNode.isRoot : TNode → Bool
  | .mk _ _ _ _ _ _ _ rt _ => rt

def TNode.children : TNode → List TNode
  | .mk _ _ _ _ _ _ _ _ cs => cs

/-- Modelled from the spec: `is_folder` distinguishes the container kind. -/
def TNode.isFolder (n : TNode) : Bool :=
  match n.kind with
  | .folder => true
  | _ => false

mutual

/-- `node_for_guid`: search a (sub)tree for the node with the given guid. -/
def findNode : TNode → Guid → Option TNode
  | .mk g k a nm dv sy uc rt cs, target =>
    if g = target then some (.mk g k a nm dv sy uc rt cs)
    else findNodeList cs target

def findNodeList : List TNode → Guid → Option TNode
  | [], _ => none
  | c :: rest, target =>
    match findNode c target with
    | some n => some n
    | none => findNodeList rest target

end

mutual

/-- `Node::parent()`: the node whose child list contains the given guid.
Modelled from the spec (`tree.rs` is not in `src/`): parent navigation is
intrinsic to a `Node`; under guid-uniqueness searching the tree recovers it. -/
def findParent : TNode → Guid → Option TNode
  | .mk g k a nm dv sy uc rt cs, target =>
    if cs.any (fun c => c.guid = target) then some (.mk g k a nm dv sy uc rt cs)
    else findParentList cs target

def findParentList : List TNode → Guid → Option TNode
  | [], _ => none
  | c :: rest, target =>
    match findParent c target with
    | some n => some n
    | none => findParentList rest target

end

mutual

/-- Depth of the node with the given guid below this node (`Node::level()`).
Modelled from the spec: "level(): integer depth from root". -/
def depthOf : TNode → Guid → Nat → Option Nat
  | .mk g _ _ _ _ _ _ _ cs, target, d =>
    if g = target then some d
    else depthOfList cs target (d + 1)

def depthOfList : List TNode → Guid → Nat → Option Nat
  | [], _, _ => none
  | c :: rest, target, d =>
    match depthOf c target d with
    | some lv => some lv
    | none => depthOfList rest target d

end

mutual

/-- `Tree::guids()` restricted to a subtree: every live identifier, preorder. -/
def collectGuids : TNode → List Guid
  | .mk g _ _ _ _ _ _ _ cs => g :: collectGuidsList cs

def collectGuidsList : List TNode → List Guid
  | [] => []
  | c :: rest => collectGuids c ++ collectGuidsList rest

end

/-- Modelled from the spec: an input `Tree` is its live node collection (held
here as the root of a nested node structure) plus a separate tombstone set. -/
structure Tree where
  root : TNode
  tombstones : List Guid

/-- `Tree::is_deleted(guid)`: membership in the tombstone set. -/
def Tree.isDeleted (t : Tree) (g : Guid) : Bool :=
  decide (g ∈ t.tombstones)

/-- `Tree::guids()`: every live identifier of the tree. -/
def Tree.guids (t : Tree) : List Guid :=
  collectGuids t.root

/-- `Tree::node_for_guid`. -/
def Tree.nodeForGuid (t : Tree) (g : Guid) : Option TNode :=
  findNode t.root g

/-- A node's level in a tree, or −1 when the guid is absent; this is
`node_for_guid(guid).map(level).unwrap_or(-1)` from the deletion iterator. -/
def levelOrNegOne (t : Tree) (g : Guid) : Int :=
  match depthOf t.root g 0 with
  | some d => (d : Int)
  | none => -1

/-- Modelled from the spec: the value part of a `MergeState` — which side's
value wins, holding the involved nodes (`tree.rs` is not in `src/`). -/
inductive MergeValue where
  | vlocal (localNode : TNode) (remoteNode : Option TNode)
  | vremote (localNode : Option TNode) (remoteNode : TNode)
  | vunchanged (localNode : TNode) (remoteNode : TNode)

/-- Modelled from the spec: a `MergeState` is one of the three value variants,
optionally marked "with new structure". -/
structure MergeState where
  value : MergeValue
  newStructure : Bool

/-- `MergeState::with_new_structure()`; idempotent by construction, as the
spec requires. -/
def MergeState.withNewStructure (s : MergeState) : MergeState :=
  { s with newStructure := true }

/-- Modelled from the spec: a merged node owns a canonical guid, a merge
state, and its ordered merged children. -/
inductive MergedNode where
  | mk (guid : Guid) (state : MergeState) (mergedChildren : List MergedNode)

def MergedNode.guid : MergedNode → Guid
  | .mk g _ _ => g

def MergedNode.state : MergedNode → MergeState
  | .mk _ s _ => s

def MergedNode.mergedChildren : MergedNode → List MergedNode
  | .mk _ _ cs => cs

/-- `merged_node.merge_state = merged_node.merge_state.with_new_structure()`. -/
def MergedNode.flagNewStructure : MergedNode → MergedNode
  | .mk g s cs => .mk g s.withNewStructure cs

/-- `merged_node.merged_children.push(child)`. -/
def MergedNode.push : MergedNode → MergedNode → MergedNode
  | .mk g s cs, c => .mk g s (cs ++ [c])

/-- Modelled from the spec: `MergedNode::remote_guid_changed()` — the merged
node has a remote counterpart whose guid differs from the merged guid (used
to force reupload of children whose `parentid` would otherwise be stale). -/
def MergedNode.remoteGuidChanged (m : MergedNode) : Bool :=
  match m.state.value with
  | .vlocal _ (some r) => decide (r.guid ≠ m.guid)
  | .vlocal _ none => false
  | .vremote _ r => decide (r.guid ≠ m.guid)
  | .vunchanged _ r => decide (r.guid ≠ m.guid)

/-- `MatchingDupes`: the two per-folder memoised dedup maps. -/
structure MatchingDupes where
  localToRemote : List (Guid × TNode)
  remoteToLocal : List (Guid × TNode)

/-- The merger's mutable bookkeeping: `merged_guids`, the two deletion sets,
the telemetry counters and the dedup cache.  `retrievedPairs` is a ghost
field recording each (local guid, remote guid) pairing at the exact program
point where the source increments `structure_counts.dupes`; it influences no
control flow and exists to state counting theorems. -/
structure MState where
  mergedGuids : List Guid
  deleteLocally : List Guid
  deleteRemotely : List Guid
  structureCounts : StructureCounts
  matchingDupes : List (Guid × MatchingDupes)
  retrievedPairs : List (Guid × Guid)

/-- `HashSet::insert`: add if absent. -/
def insertG (g : Guid) (s : List Guid) : List Guid :=
  if g ∈ s then s else g :: s

def initState : MState :=
  ⟨[], [], [], .zero, [], []⟩

/-- The merger's read-only context: the two trees, the optional content
indices, the driver's `generate_new_guid`, and `Guid::valid()` (the latter is
implementation-defined in the source; it is a parameter here). -/
structure MergerEnv where
  localTree : Tree
  newLocalContents : Option (List (Guid × Content))
  remoteTree : Tree
  newRemoteContents : Option (List (Guid × Content))
  generateNewGuid : Guid → EM Guid
  guidValid : Guid → Bool

/-- `DefaultDriver::generate_new_guid`: refuse every invalid guid. -/
def defaultDriver : Guid → EM Guid :=
  fun g => .error (.generateGuid g)

/-- `Merger::mentions`: guid appears in `merged_guids` or either deletion
set. -/
def mentions (st : MState) (g : Guid) : Bool :=
  decide (g ∈ st.mergedGuids) || decide (g ∈ st.deleteLocally) ||
    decide (g ∈ st.deleteRemotely)

/-- `Merger::subsumes`. -/
def subsumes (st : MState) (t : Tree) : Bool :=
  t.guids.all (fun g => mentions st g)

/-- `Merger::resolve_value_conflict`. -/
def resolveValueConflict (localNode remoteNode : TNode) :
    ConflictResolution × ConflictResolution :=
  if remoteNode.isRoot then
    (.clocal, .clocal)
  else
    match localNode.needsMerge, remoteNode.needsMerge with
    | true, true =>
      match localNode.diverged, remoteNode.diverged with
      | true, false => (.cremote, .cremote)
      | false, true => (.clocal, .clocal)
      | _, _ =>
        if localNode.age < remoteNode.age then
          (.clocal, .clocal)
        else
          if remoteNode.isUserContentRoot then
            (.clocal, .cremote)
          else
            (.cremote, .cremote)
    | true, false => (.clocal, .clocal)
    | false, true =>
      if remoteNode.isUserContentRoot then
        (.clocal, .cremote)
      else
        (.cremote, .cremote)
    | false, false => (.cunchanged, .cunchanged)

/-- `Merger::resolve_structure_conflict`. -/
def resolveStructureConflict (localParent localChild remoteParent remoteChild :
    TNode) : ConflictResolution :=
  if remoteChild.isUserContentRoot then
    .clocal
  else
    match localParent.needsMerge, remoteParent.needsMerge with
    | true, true =>
      match localParent.diverged, remoteParent.diverged with
      | true, false => .cremote
      | false, true => .clocal
      | _, _ =>
        let latestLocalAge := min localChild.age localParent.age
        let latestRemoteAge := min remoteChild.age remoteParent.age
        if latestLocalAge < latestRemoteAge then .clocal else .cremote
    | true, false => .clocal
    | false, true => .cremote
    | false, false => .cunchanged

/-- Association-list lookup (a `HashMap` get). -/
def assocFind {α : Type} (l : List (Guid × α)) (g : Guid) : Option α :=
  match l with
  | [] => none
  | (k, v) :: rest => if k = g then some v else assocFind rest g

/-- Lookup in an optional content index
(`contents.and_then(|c| c.get(&guid))`). -/
def lookupContent (contents : Option (List (Guid × Content))) (g : Guid) :
    Option Content :=
  match contents with
  | none => none
  | some l => assocFind l g

/-- `dupe_key_to_local_nodes.entry(content).or_default().push_back(node)`. -/
def addToQueue (key : Content) (n : TNode) :
    List (Content × List TNode) → List (Content × List TNode)
  | [] => [(key, [n])]
  | (k, q) :: rest =>
    if k = key then (k, q ++ [n]) :: rest
    else (k, q) :: addToQueue key n rest

/-- First loop of `find_all_matching_dupes_in_folders`: bucket the local
children that are unsynced (have a content entry), don't exist remotely, and
aren't deleted remotely, into FIFO queues keyed by content fingerprint. -/
def buildDupeKeys (env : MergerEnv) :
    List TNode → List (Content × List TNode) → List (Content × List TNode)
  | [], acc => acc
  | c :: rest, acc =>
    match lookupContent env.newLocalContents c.guid with
    | some content =>
      if (findNode env.remoteTree.root c.guid).isSome then
        buildDupeKeys env rest acc
      else if env.remoteTree.isDeleted c.guid then
        buildDupeKeys env rest acc
      else
        buildDupeKeys env rest (addToQueue content c acc)
    | none => buildDupeKeys env rest acc

/-- `dupe_key_to_local_nodes.get_mut(content)` followed by `pop_front()`:
returns the popped node (if the key exists and its queue is non-empty) and
the updated queues. -/
def popQueue (key : Content) :
    List (Content × List TNode) → Option TNode × List (Content × List TNode)
  | [] => (none, [])
  | (k, q) :: rest =>
    if k = key then
      match q with
      | [] => (none, (k, q) :: rest)
      | n :: q' => (some n, (k, q') :: rest)
    else
      let (r, rest') := popQueue key rest
      (r, (k, q) :: rest')

/-- Second loop of `find_all_matching_dupes_in_folders`: pair each unsynced,
not-yet-paired remote child with the head of its fingerprint's local queue. -/
def matchRemoteChildren (env : MergerEnv) :
    List TNode → List (Content × List TNode) →
    List (Guid × TNode) → List (Guid × TNode) → MatchingDupes
  | [], _, localToRemote, remoteToLocal => ⟨localToRemote, remoteToLocal⟩
  | rc :: rest, queues, localToRemote, remoteToLocal =>
    if (assocFind remoteToLocal rc.guid).isSome then
      matchRemoteChildren env rest queues localToRemote remoteToLocal
    else
      match lookupContent env.newRemoteContents rc.guid with
      | some content =>
        match popQueue content queues with
        | (some ln, queues') =>
          matchRemoteChildren env rest queues'
            (localToRemote ++ [(ln.guid, rc)])
            (remoteToLocal ++ [(rc.guid, ln)])
        | (none, queues') =>
          matchRemoteChildren env rest queues' localToRemote remoteToLocal
      | none =>
        matchRemoteChildren env rest queues localToRemote remoteToLocal

/-- `Merger::find_all_matching_dupes_in_folders`: pure (takes `&self`),
touches no merger state. -/
def findAllMatchingDupesInFolders (env : MergerEnv)
    (localParent remoteParent : TNode) : MatchingDupes :=
  matchRemoteChildren env remoteParent.children
    (buildDupeKeys env localParent.children []) [] []

/-- `matching_dupes_by_local_parent_guid.entry(guid).or_insert_with(...)`. -/
def cacheEnsure (env : MergerEnv) (st : MState)
    (localParent remoteParent : TNode) : MatchingDupes × MState :=
  match assocFind st.matchingDupes localParent.guid with
  | some md => (md, st)
  | none =>
    let md := findAllMatchingDupesInFolders env localParent remoteParent
    (md, { st with matchingDupes := st.matchingDupes ++ [(localParent.guid, md)] })

/-- `Merger::find_remote_node_matching_local_node`.  On a hit the source
increments `structure_counts.dupes`; the ghost `retrievedPairs` records the
same event. -/
def findRemoteNodeMatchingLocalNode (env : MergerEnv)
    (_mergedNode : MergedNode) (localParent : TNode)
    (remoteParent : Option TNode) (localChild : TNode) (st : MState) :
    Option TNode × MState :=
  match remoteParent with
  | none => (none, st)
  | some rp =>
    let (md, st) := cacheEnsure env st localParent rp
    match assocFind md.localToRemote localChild.guid with
    | some rn =>
      (some rn,
        { st with
          structureCounts :=
            { st.structureCounts with dupes := st.structureCounts.dupes + 1 },
          retrievedPairs := st.retrievedPairs ++ [(localChild.guid, rn.guid)] })
    | none => (none, st)

/-- `Merger::find_local_node_matching_remote_node`. -/
def findLocalNodeMatchingRemoteNode (env : MergerEnv)
    (_mergedNode : MergedNode) (localParent : Option TNode)
    (remoteParent : TNode) (remoteChild : TNode) (st : MState) :
    Option TNode × MState :=
  match localParent with
  | none => (none, st)
  | some lp =>
    let (md, st) := cacheEnsure env st lp remoteParent
    match assocFind md.remoteToLocal remoteChild.guid with
    | some ln =>
      (some ln,
        { st with
          structureCounts :=
            { st.structureCounts with dupes := st.structureCounts.dupes + 1 },
          retrievedPairs := st.retrievedPairs ++ [(ln.guid, remoteChild.guid)] })
    | none => (none, st)

/-- Bump `structure_counts.remote_revives`. -/
def bumpRemoteRevives (st : MState) : MState :=
  { st with structureCounts :=
      { st.structureCounts with remoteRevives := st.structureCounts.remoteRevives + 1 } }

/-- Bump `structure_counts.local_deletes`. -/
def bumpLocalDeletes (st : MState) : MState :=
  { st with structureCounts :=
      { st.structureCounts with localDeletes := st.structureCounts.localDeletes + 1 } }

/-- Bump `structure_counts.local_revives`. -/
def bumpLocalRevives (st : MState) : MState :=
  { st with structureCounts :=
      { st.structureCounts with localRevives := st.structureCounts.localRevives + 1 } }

/-- Bump `structure_counts.remote_deletes`. -/
def bumpRemoteDeletes (st : MState) : MState :=
  { st with structureCounts :=
      { st.structureCounts with remoteDeletes := st.structureCounts.remoteDeletes + 1 } }

/-- Insert into `delete_remotely`. -/
def insDeleteRemotely (g : Guid) (st : MState) : MState :=
  { st with deleteRemotely := insertG g st.deleteRemotely }

/-- Insert into `delete_locally`. -/
def insDeleteLocally (g : Guid) (st : MState) : MState :=
  { st with deleteLocally := insertG g st.deleteLocally }

/-- Insert into `merged_guids`. -/
def insMergedGuid (g : Guid) (st : MState) : MState :=
  { st with mergedGuids := insertG g st.mergedGuids }

mutual

/-- `Merger::two_way_merge`: merge two nodes that exist on both sides.
Rust's `?` operator is rendered as an explicit `match` on the fallible
call, with the `.error` arm propagating the error. -/
def twoWayMerge (env : MergerEnv) (fuel : Nat) (localNode remoteNode : TNode)
    (st : MState) : EM (MergedNode × MState) :=
  match fuel with
  | 0 => .error .outOfFuel
  | fuel + 1 =>
    if hasCompatibleKind localNode.kind remoteNode.kind then
      let st := insMergedGuid remoteNode.guid st
      let st :=
        if localNode.guid ≠ remoteNode.guid then insMergedGuid localNode.guid st
        else st
      let res := resolveValueConflict localNode remoteNode
      let mergedNode : MergedNode := .mk remoteNode.guid
        { value :=
            match res.1 with
            | .clocal => .vlocal localNode (some remoteNode)
            | .cremote => .vremote (some localNode) remoteNode
            | .cunchanged => .vunchanged localNode remoteNode,
          newStructure := false } []
      match res.2 with
      | .clocal =>
        match walkLocalChildren env fuel mergedNode localNode
          (some remoteNode) localNode.children st with
        | .error e => .error e
        | .ok (mergedNode, st) =>
          walkRemoteChildren env fuel mergedNode (some localNode) remoteNode
            remoteNode.children st
      | _ =>
        match walkRemoteChildren env fuel mergedNode (some localNode)
          remoteNode remoteNode.children st with
        | .error e => .error e
        | .ok (mergedNode, st) =>
          walkLocalChildren env fuel mergedNode localNode (some remoteNode)
            localNode.children st
    else
      .error (.mismatchedItemKind localNode.kind remoteNode.kind)
termination_by structural fuel

/-- The `for local_child_node in ...` loops that feed
`merge_local_child_into_merged_node`. -/
def walkLocalChildren (env : MergerEnv) (fuel : Nat) (mergedNode : MergedNode)
    (localParent : TNode) (remoteParent : Option TNode) (cs : List TNode)
    (st : MState) : EM (MergedNode × MState) :=
  match fuel with
  | 0 => .error .outOfFuel
  | fuel + 1 =>
    match cs with
    | [] => .ok (mergedNode, st)
    | c :: rest =>
      match mergeLocalChildIntoMergedNode env fuel mergedNode localParent
        remoteParent c st with
      | .error e => .error e
      | .ok (mergedNode, st) =>
        walkLocalChildren env fuel mergedNode localParent remoteParent rest st
termination_by structural fuel

/-- The `for remote_child_node in ...` loops that feed
`merge_remote_child_into_merged_node`. -/
def walkRemoteChildren (env : MergerEnv) (fuel : Nat) (mergedNode : MergedNode)
    (localParent : Option TNode) (remoteParent : TNode) (cs : List TNode)
    (st : MState) : EM (MergedNode × MState) :=
  match fuel with
  | 0 => .error .outOfFuel
  | fuel + 1 =>
    match cs with
    | [] => .ok (mergedNode, st)
    | c :: rest =>
      match mergeRemoteChildIntoMergedNode env fuel mergedNode localParent
        remoteParent c st with
      | .error e => .error e
      | .ok (mergedNode, st) =>
        walkRemoteChildren env fuel mergedNode localParent remoteParent rest st
termination_by structural fuel

/-- `Merger::merge_local_node`: a subtree that only exists locally. -/
def mergeLocalNode (env : MergerEnv) (fuel : Nat) (localNode : TNode)
    (st : MState) : EM (MergedNode × MState) :=
  match fuel with
  | 0 => .error .outOfFuel
  | fuel + 1 =>
    let st := insMergedGuid localNode.guid st
    let step : EM (Guid × MState) :=
      if env.guidValid localNode.guid then .ok (localNode.guid, st)
      else
        match env.generateNewGuid localNode.guid with
        | .error e => .error e
        | .ok newGuid =>
          if newGuid ≠ localNode.guid then
            .ok (newGuid, insMergedGuid newGuid st)
          else
            .ok (newGuid, st)
    match step with
    | .error e => .error e
    | .ok (mergedGuid, st) =>
      let mergedNode : MergedNode :=
        .mk mergedGuid ⟨.vlocal localNode none, false⟩ []
      if localNode.isFolder then
        walkLocalChildren env fuel mergedNode localNode none
          localNode.children st
      else
        .ok (mergedNode, st)
termination_by structural fuel

/-- `Merger::merge_remote_node`: a subtree that only exists remotely. -/
def mergeRemoteNode (env : MergerEnv) (fuel : Nat) (remoteNode : TNode)
    (st : MState) : EM (MergedNode × MState) :=
  match fuel with
  | 0 => .error .outOfFuel
  | fuel + 1 =>
    let st := insMergedGuid remoteNode.guid st
    let step : EM (Guid × MState) :=
      if env.guidValid remoteNode.guid then .ok (remoteNode.guid, st)
      else
        match env.generateNewGuid remoteNode.guid with
        | .error e => .error e
        | .ok newGuid =>
          if newGuid ≠ remoteNode.guid then
            -- Upload tombstones for changed remote GUIDs.
            .ok (newGuid, insDeleteRemotely remoteNode.guid
              (insMergedGuid newGuid st))
          else
            .ok (newGuid, st)
    match step with
    | .error e => .error e
    | .ok (mergedGuid, st) =>
      let mergedNode : MergedNode :=
        .mk mergedGuid ⟨.vremote none remoteNode, false⟩ []
      if remoteNode.isFolder then
        walkRemoteChildren env fuel mergedNode none remoteNode
          remoteNode.children st
      else
        .ok (mergedNode, st)
termination_by structural fuel

/-- `Merger::merge_remote_child_into_merged_node`. -/
def mergeRemoteChildIntoMergedNode (env : MergerEnv) (fuel : Nat)
    (mergedNode : MergedNode) (localParent : Option TNode)
    (remoteParent : TNode) (remoteChild : TNode) (st : MState) :
    EM (MergedNode × MState) :=
  match fuel with
  | 0 => .error .outOfFuel
  | fuel + 1 =>
    if remoteChild.guid ∈ st.mergedGuids then
      .ok (mergedNode, st)
    else
      match checkForLocalStructureChangeOfRemoteNode env fuel mergedNode
        remoteParent remoteChild st with
      | .error e => .error e
      | .ok (chg, mergedNode, st) =>
        if chg = .deleted then
          -- Flag the merged parent for reupload, since we deleted the remote
          -- child.
          .ok (mergedNode.flagNewStructure, st)
        else
          match findNode env.localTree.root remoteChild.guid with
          | some localChild =>
            match findParent env.localTree.root localChild.guid with
            | none => .error .missingParent
            | some localParentNode =>
              if env.remoteTree.isDeleted localParentNode.guid then
                -- Unconditionally take the remote move, because the local
                -- parent is deleted remotely.
                match twoWayMerge env fuel localChild remoteChild st with
                | .error e => .error e
                | .ok (mergedChild, st) =>
                  let mergedChild :=
                    if remoteChild.diverged || mergedNode.remoteGuidChanged
                    then mergedChild.flagNewStructure
                    else mergedChild
                  .ok (mergedNode.push mergedChild, st)
              else
                match resolveStructureConflict localParentNode localChild
                  remoteParent remoteChild with
                | .clocal =>
                  -- The local move is newer; flag the old parent for
                  -- reupload.
                  .ok (mergedNode.flagNewStructure, st)
                | _ =>
                  -- The remote move is newer; merge the remote child now.
                  match twoWayMerge env fuel localChild remoteChild st with
                  | .error e => .error e
                  | .ok (mergedChild, st) =>
                    let mergedChild :=
                      if remoteChild.diverged || mergedNode.remoteGuidChanged
                      then mergedChild.flagNewStructure
                      else mergedChild
                    .ok (mergedNode.push mergedChild, st)
          | none =>
            -- Doesn't exist locally; look for a local content match.
            match findLocalNodeMatchingRemoteNode env mergedNode localParent
              remoteParent remoteChild st with
            | (found, st) =>
              match
                (match found with
                 | some localMatch =>
                   twoWayMerge env fuel localMatch remoteChild st
                 | none => mergeRemoteNode env fuel remoteChild st) with
              | .error e => .error e
              | .ok (mergedChild, st) =>
                let mergedChild :=
                  if remoteChild.diverged || mergedNode.remoteGuidChanged
                  then mergedChild.flagNewStructure
                  else mergedChild
                .ok (mergedNode.push mergedChild, st)
termination_by structural fuel

/-- `Merger::merge_local_child_into_merged_node`. -/
def mergeLocalChildIntoMergedNode (env : MergerEnv) (fuel : Nat)
    (mergedNode : MergedNode) (localParent : TNode)
    (remoteParent : Option TNode) (localChild : TNode) (st : MState) :
    EM (MergedNode × MState) :=
  match fuel with
  | 0 => .error .outOfFuel
  | fuel + 1 =>
    if localChild.guid ∈ st.mergedGuids then
      .ok (mergedNode, st)
    else
      match checkForRemoteStructureChangeOfLocalNode env fuel mergedNode
        localParent localChild st with
      | .error e => .error e
      | .ok (chg, mergedNode, st) =>
        if chg = .deleted then
          -- Since we're merging local nodes, we don't need to flag the
          -- merged parent for reupload.
          .ok (mergedNode, st)
        else
          match findNode env.remoteTree.root localChild.guid with
          | some remoteChild =>
            match findParent env.remoteTree.root remoteChild.guid with
            | none => .error .missingParent
            | some remoteParentNode =>
              if env.localTree.isDeleted remoteParentNode.guid then
                -- Unconditionally take the local move, because the remote
                -- parent is deleted locally; flag the new parent and the
                -- moved child for reupload.
                match twoWayMerge env fuel localChild remoteChild st with
                | .error e => .error e
                | .ok (mergedChild, st) =>
                  .ok ((mergedNode.flagNewStructure).push
                    (mergedChild.flagNewStructure), st)
              else
                match resolveStructureConflict localParent localChild
                  remoteParentNode remoteChild with
                | .clocal =>
                  if localParent.guid ≠ remoteParentNode.guid then
                    -- Reparented locally; flag the new parent and the child.
                    match twoWayMerge env fuel localChild remoteChild st with
                    | .error e => .error e
                    | .ok (mergedChild, st) =>
                      .ok ((mergedNode.flagNewStructure).push
                        (mergedChild.flagNewStructure), st)
                  else
                    -- Repositioned in the same folder; flag the parent, and
                    -- the child only if the remote child diverged or the
                    -- merged parent's guid changed.
                    match twoWayMerge env fuel localChild remoteChild st with
                    | .error e => .error e
                    | .ok (mergedChild, st) =>
                      let mergedNode := mergedNode.flagNewStructure
                      let mergedChild :=
                        if remoteChild.diverged || mergedNode.remoteGuidChanged
                        then mergedChild.flagNewStructure
                        else mergedChild
                      .ok (mergedNode.push mergedChild, st)
                | _ =>
                  -- The remote move is newer; the local child will be merged
                  -- when we walk its new remote parent.
                  .ok (mergedNode, st)
          | none =>
            -- Doesn't exist remotely; look for a remote content match.
            match findRemoteNodeMatchingLocalNode env mergedNode localParent
              remoteParent localChild st with
            | (some remoteMatch, st) =>
              match twoWayMerge env fuel localChild remoteMatch st with
              | .error e => .error e
              | .ok (mergedChild, st) =>
                if remoteMatch.diverged || mergedNode.remoteGuidChanged then
                  .ok ((mergedNode.flagNewStructure).push
                    (mergedChild.flagNewStructure), st)
                else
                  .ok (mergedNode.push mergedChild, st)
            | (none, st) =>
              match mergeLocalNode env fuel localChild st with
              | .error e => .error e
              | .ok (mergedChild, st) =>
                .ok ((mergedNode.flagNewStructure).push
                  (mergedChild.flagNewStructure), st)
termination_by structural fuel

/-- `Merger::check_for_local_structure_change_of_remote_node`: classify a
remote node as locally unchanged / moved / deleted, inserting into
`delete_remotely` and relocating remote orphans as needed. -/
def checkForLocalStructureChangeOfRemoteNode (env : MergerEnv) (fuel : Nat)
    (mergedNode : MergedNode) (remoteParent : TNode) (remoteNode : TNode)
    (st : MState) : EM (StructureChange × MergedNode × MState) :=
  match fuel with
  | 0 => .error .outOfFuel
  | fuel + 1 =>
    if !remoteNode.isSyncable then
      -- A non-syncable remote node is unconditionally deleted from the
      -- server.
      let st := insDeleteRemotely remoteNode.guid st
      if remoteNode.isFolder then
        match relocateRemoteOrphansToMergedNode env fuel mergedNode remoteNode
          remoteNode.children st with
        | .error e => .error e
        | .ok (mergedNode, st) => .ok (.deleted, mergedNode, st)
      else
        .ok (.deleted, mergedNode, st)
    else if !(env.localTree.isDeleted remoteNode.guid) then
      match findNode env.localTree.root remoteNode.guid with
      | some localNode =>
        if !localNode.isSyncable then
          -- Syncable remotely but non-syncable locally: delete from the
          -- server.
          let st := insDeleteRemotely remoteNode.guid st
          if remoteNode.isFolder then
            match relocateRemoteOrphansToMergedNode env fuel mergedNode
              remoteNode remoteNode.children st with
            | .error e => .error e
            | .ok (mergedNode, st) => .ok (.deleted, mergedNode, st)
          else
            .ok (.deleted, mergedNode, st)
        else
          match findParent env.localTree.root localNode.guid with
          | none => .error .missingParent
          | some localParentNode =>
            if localParentNode.guid ≠ remoteParent.guid then
              .ok (.moved, mergedNode, st)
            else
              .ok (.unchanged, mergedNode, st)
      | none => .ok (.unchanged, mergedNode, st)
    else
      -- The local tree tombstones the remote node.
      if remoteNode.needsMerge && !remoteNode.isFolder then
        -- Non-folder deleted locally and changed remotely: the remote change
        -- wins.
        .ok (.unchanged, mergedNode, bumpRemoteRevives st)
      else
        -- Take the local deletion (counting it when the folder changed
        -- remotely) and relocate any new remote descendants.
        let st := if remoteNode.needsMerge then bumpLocalDeletes st else st
        let st := insDeleteRemotely remoteNode.guid st
        if remoteNode.isFolder then
          match relocateRemoteOrphansToMergedNode env fuel mergedNode
            remoteNode remoteNode.children st with
          | .error e => .error e
          | .ok (mergedNode, st) => .ok (.deleted, mergedNode, st)
        else
          .ok (.deleted, mergedNode, st)
termination_by structural fuel

/-- `Merger::check_for_remote_structure_change_of_local_node`: classify a
local node as remotely unchanged / moved / deleted, inserting into
`delete_locally` and relocating local orphans as needed. -/
def checkForRemoteStructureChangeOfLocalNode (env : MergerEnv) (fuel : Nat)
    (mergedNode : MergedNode) (localParent : TNode) (localNode : TNode)
    (st : MState) : EM (StructureChange × MergedNode × MState) :=
  match fuel with
  | 0 => .error .outOfFuel
  | fuel + 1 =>
    if !localNode.isSyncable then
      let st := insDeleteLocally localNode.guid st
      if localNode.isFolder then
        match relocateLocalOrphansToMergedNode env fuel mergedNode localNode
          localNode.children st with
        | .error e => .error e
        | .ok (mergedNode, st) => .ok (.deleted, mergedNode, st)
      else
        .ok (.deleted, mergedNode, st)
    else if !(env.remoteTree.isDeleted localNode.guid) then
      match findNode env.remoteTree.root localNode.guid with
      | some remoteNode =>
        if !remoteNode.isSyncable then
          let st := insDeleteLocally localNode.guid st
          -- NB: the source tests the *remote* node's folderhood here before
          -- relocating the local node's orphans.
          if remoteNode.isFolder then
            match relocateLocalOrphansToMergedNode env fuel mergedNode
              localNode localNode.children st with
            | .error e => .error e
            | .ok (mergedNode, st) => .ok (.deleted, mergedNode, st)
          else
            .ok (.deleted, mergedNode, st)
        else
          match findParent env.remoteTree.root remoteNode.guid with
          | none => .error .missingParent
          | some remoteParentNode =>
            if remoteParentNode.guid ≠ localParent.guid then
              .ok (.moved, mergedNode, st)
            else
              .ok (.unchanged, mergedNode, st)
      | none => .ok (.unchanged, mergedNode, st)
    else
      -- The remote tree tombstones the local node.
      if localNode.needsMerge && !localNode.isFolder then
        .ok (.unchanged, mergedNode, bumpLocalRevives st)
      else
        let st := if localNode.needsMerge then bumpRemoteDeletes st else st
        let st := insDeleteLocally localNode.guid st
        if localNode.isFolder then
          match relocateLocalOrphansToMergedNode env fuel mergedNode localNode
            localNode.children st with
          | .error e => .error e
          | .ok (mergedNode, st) => .ok (.deleted, mergedNode, st)
        else
          .ok (.deleted, mergedNode, st)
termination_by structural fuel

/-- `Merger::relocate_remote_orphans_to_merged_node`.  The extra list
parameter is the iteration state of the source's `for` loop over
`remote_node.children()`. -/
def relocateRemoteOrphansToMergedNode (env : MergerEnv) (fuel : Nat)
    (mergedNode : MergedNode) (remoteNode : TNode) (cs : List TNode)
    (st : MState) : EM (MergedNode × MState) :=
  match fuel with
  | 0 => .error .outOfFuel
  | fuel + 1 =>
    match cs with
    | [] => .ok (mergedNode, st)
    | c :: rest =>
      if c.guid ∈ st.mergedGuids then
        relocateRemoteOrphansToMergedNode env fuel mergedNode remoteNode rest st
      else
        match checkForLocalStructureChangeOfRemoteNode env fuel mergedNode
          remoteNode c st with
        | .error e => .error e
        | .ok (chg, mergedNode, st) =>
          match chg with
          | .unchanged =>
            match
              (match findNode env.localTree.root c.guid with
               | some localChild => twoWayMerge env fuel localChild c st
               | none => mergeRemoteNode env fuel c st) with
            | .error e => .error e
            | .ok (orphan, st) =>
              -- Flag the new parent and the moved remote orphan for
              -- reupload.
              relocateRemoteOrphansToMergedNode env fuel
                ((mergedNode.flagNewStructure).push (orphan.flagNewStructure))
                remoteNode rest st
          | _ =>
            -- Already moved or deleted locally; not an orphan.
            relocateRemoteOrphansToMergedNode env fuel mergedNode remoteNode
              rest st
termination_by structural fuel

/-- `Merger::relocate_local_orphans_to_merged_node`. -/
def relocateLocalOrphansToMergedNode (env : MergerEnv) (fuel : Nat)
    (mergedNode : MergedNode) (localNode : TNode) (cs : List TNode)
    (st : MState) : EM (MergedNode × MState) :=
  match fuel with
  | 0 => .error .outOfFuel
  | fuel + 1 =>
    match cs with
    | [] => .ok (mergedNode, st)
    | c :: rest =>
      if c.guid ∈ st.mergedGuids then
        relocateLocalOrphansToMergedNode env fuel mergedNode localNode rest st
      else
        match checkForRemoteStructureChangeOfLocalNode env fuel mergedNode
          localNode c st with
        | .error e => .error e
        | .ok (chg, mergedNode, st) =>
          match chg with
          | .unchanged =>
            match
              (match findNode env.remoteTree.root c.guid with
               | some remoteChild => twoWayMerge env fuel c remoteChild st
               | none => mergeLocalNode env fuel c st) with
            | .error e => .error e
            | .ok (orphan, st) =>
              relocateLocalOrphansToMergedNode env fuel
                ((mergedNode.flagNewStructure).push (orphan.flagNewStructure))
                localNode rest st
          | _ =>
            relocateLocalOrphansToMergedNode env fuel mergedNode localNode
              rest st
termination_by structural fuel

end

/-- The deletion-finalizer fold from `Merger::merge`: each local tombstone
not already mentioned is deleted remotely (and vice versa). -/
def applyTombstones (tombstones : List Guid) (insert : Guid → MState → MState)
    (st : MState) : MState :=
  tombstones.foldl (fun st g => if mentions st g then st else insert g st) st

/-- `Merger::merge`: two-way-merge the roots, then finalize the deletion
sets from the input trees' tombstones. -/
def merge (env : MergerEnv) (fuel : Nat) : EM (MergedNode × MState) :=
  match twoWayMerge env fuel env.localTree.root env.remoteTree.root
    initState with
  | .error e => .error e
  | .ok (mergedRoot, st) =>
    .ok (mergedRoot, applyTombstones env.remoteTree.tombstones
      insDeleteLocally
      (applyTombstones env.localTree.tombstones insDeleteRemotely st))

/-- `Merger::local_deletions`: guids to delete locally (skipping those also
deleted remotely), with their local levels, tombstone upload not needed. -/
def localDeletions (st : MState) (localTree : Tree) : List Deletion :=
  (st.deleteLocally.filter (fun g => decide (g ∉ st.deleteRemotely))).map
    (fun g => ⟨g, levelOrNegOne localTree g, false⟩)

/-- `Merger::remote_deletions`: every guid to delete remotely, with its local
level, tombstone upload needed. -/
def remoteDeletions (st : MState) (localTree : Tree) : List Deletion :=
  st.deleteRemotely.map (fun g => ⟨g, levelOrNegOne localTree g, true⟩)

/-- `Merger::deletions()`: the local deletions chained with the remote
deletions. -/
def deletionsList (st : MState) (localTree : Tree) : List Deletion :=
  localDeletions st localTree ++ remoteDeletions st localTree

/-! ## Helper constructors for concrete inputs -/

/-- A syncable, non-diverged folder with the given guid, `needs_merge` flag
and children; age 0, not a root. -/
def folderN (g : Guid) (nm : Bool) (cs : List TNode) : TNode :=
  .mk g .folder 0 nm false true false false cs

/-- A calm syncable root folder. -/
def rootN (g : Guid) (cs : List TNode) : TNode :=
  .mk g .folder 0 false false true false true cs

/-- A syncable, non-diverged bookmark leaf; age 0. -/
def bookmarkN (g : Guid) (nm : Bool) : TNode :=
  .mk g .bookmark 0 nm false true false false []

/-- An environment with no content indices, the default driver, and all
guids valid. -/
def envOf (lt rt : Tree) : MergerEnv :=
  ⟨lt, none, rt, none, defaultDriver, fun _ => true⟩

/-- An empty merged folder node used as the ambient merged parent when
calling the structure-change detectors directly. -/
def mnEmpty (g : Guid) : MergedNode :=
  .mk g ⟨.vlocal (rootN g []) none, false⟩ []

/-! ## C4 — the value-conflict table -/

/-- The value-conflict table exactly as the claim words it (spec-side
definition, to be compared against the source-side `resolveValueConflict`). -/
def resolveValueConflictClaim (l r : TNode) :
    ConflictResolution × ConflictResolution :=
  if r.isRoot then (.clocal, .clocal)
  else if l.needsMerge && r.needsMerge then
    if l.diverged && !r.diverged then (.cremote, .cremote)
    else if !l.diverged && r.diverged then (.clocal, .clocal)
    else if l.age < r.age then (.clocal, .clocal)
    else if r.isUserContentRoot then (.clocal, .cremote)
    else (.cremote, .cremote)
  else if l.needsMerge && !r.needsMerge then (.clocal, .clocal)
  else if !l.needsMerge && r.needsMerge then
    if r.isUserContentRoot then (.clocal, .cremote) else (.cremote, .cremote)
  else (.cunchanged, .cunchanged)

/-- C4: `resolve_value_conflict(local, remote)` returns `(Local, Local)` when
`remote.is_root`; otherwise, by `(local.needs_merge, remote.needs_merge)`:
for `(true,true)`, `(Remote,Remote)` if only local diverged, `(Local,Local)`
if only remote diverged, else `(Local,Local)` when `local.age < remote.age`,
and when remote wins `(Local,Remote)` if `remote.is_user_content_root` else
`(Remote,Remote)`; for `(true,false)`, `(Local,Local)`; for `(false,true)`,
`(Local,Remote)` if `remote.is_user_content_root` else `(Remote,Remote)`;
for `(false,false)`, `(Unchanged,Unchanged)`. -/
theorem c4_resolve_value_conflict_table (l r : TNode) :
    resolveValueConflict l r = resolveValueConflictClaim l r := by
  cases l with
  | mk lg lk la lnm ldv lsy luc lrt lcs =>
    cases r with
    | mk rg rk ra rnm rdv rsy ruc rrt rcs =>
      simp only [resolveValueConflict, resolveValueConflictClaim, TNode.isRoot,
        TNode.needsMerge, TNode.diverged, TNode.age, TNode.isUserContentRoot]
      cases rrt <;> cases lnm <;> cases rnm <;> cases ldv <;> cases rdv <;>
        simp

/-! ## C9 — age ties break toward the remote side -/

/-- A non-root item node for the C9 counterexample: `is_root` true, both
sides needing merge, equal ages, not diverged. -/
def c9RootTie : TNode := .mk 1 .folder 7 true false true false true []

/-- A user-content-root child / parents for the C9 structure-conflict
counterexample: both parents changed, not diverged, equal minimum ages. -/
def c9UcrChild : TNode := .mk 2 .folder 7 true false true true false []

/-- A changed non-diverged parent of age 7 for the C9 counterexample. -/
def c9Parent : TNode := .mk 3 .folder 7 true false true false false []

/-- C9 counterexample: with `remote.is_root` true (resp. with
`remote_child.is_user_content_root` true) and an exact age tie, the resolvers
return `Local`, not `Remote` (and not `(Local, Remote)` either): the root and
user-content-root guards take priority over the tie-break the claim states
unconditionally. -/
theorem c9_tie_counterexample :
    resolveValueConflict c9RootTie c9RootTie = (.clocal, .clocal) ∧
    (ConflictResolution.clocal, ConflictResolution.clocal) ≠
      (ConflictResolution.cremote, ConflictResolution.cremote) ∧
    (ConflictResolution.clocal, ConflictResolution.clocal) ≠
      (ConflictResolution.clocal, ConflictResolution.cremote) ∧
    resolveStructureConflict c9Parent c9UcrChild c9Parent c9UcrChild =
      .clocal ∧
    ConflictResolution.clocal ≠ ConflictResolution.cremote := by
  refine ⟨by decide, by decide, by decide, by decide, by decide⟩

/-- C9 (amended): provided `remote.is_root` is false, when both nodes have
`needs_merge`, their `diverged` flags agree, and `local.age = remote.age`,
the item resolves to `Remote` — or to `Local` with `Remote` children if the
remote node is a user content root; and provided
`remote_child.is_user_content_root` is false, when both parents have
`needs_merge`, their `diverged` flags agree, and the minimum ages tie,
`resolve_structure_conflict` returns `Remote`. -/
theorem c9_age_ties_break_remote (l r lp lc rp rc : TNode)
    (hroot : r.isRoot = false)
    (hlnm : l.needsMerge = true) (hrnm : r.needsMerge = true)
    (hdv : l.diverged = r.diverged) (hage : l.age = r.age)
    (hucr : rc.isUserContentRoot = false)
    (hlpnm : lp.needsMerge = true) (hrpnm : rp.needsMerge = true)
    (hpdv : lp.diverged = rp.diverged)
    (hmin : min lc.age lp.age = min rc.age rp.age) :
    resolveValueConflict l r =
      (if r.isUserContentRoot then (.clocal, .cremote)
       else (.cremote, .cremote)) ∧
    resolveStructureConflict lp lc rp rc = .cremote := by
  constructor
  · simp only [resolveValueConflict, hroot, hlnm, hrnm, if_false]
    rw [hdv]
    cases hd : r.diverged <;>
      simp [hage]
  · simp only [resolveStructureConflict, hucr, hlpnm, hrpnm, if_false]
    rw [hpdv]
    cases hd : rp.diverged <;>
      simp [hmin]

/-- Witness for C9 (amended) at concrete nodes: two changed non-diverged
non-root bookmarks with age 5 resolve the item to `Remote`, and two changed
parents with tied minimum ages resolve the structure conflict to `Remote`. -/
theorem c9_age_ties_break_remote_witness :
    resolveValueConflict (.mk 1 .bookmark 5 true false true false false [])
        (.mk 1 .bookmark 5 true false true false false []) =
      (.cremote, .cremote) ∧
    resolveStructureConflict c9Parent (bookmarkN 9 true) c9Parent
      (bookmarkN 9 true) = .cremote := by
  have h := c9_age_ties_break_remote
    (.mk 1 .bookmark 5 true false true false false [])
    (.mk 1 .bookmark 5 true false true false false [])
    c9Parent (bookmarkN 9 true) c9Parent (bookmarkN 9 true)
    (by decide) (by decide) (by decide) (by decide) (by decide) (by decide)
    (by decide) (by decide) (by decide) (by decide)
  exact ⟨h.1, h.2⟩

/-! ## C5 — the deletions iterator -/

/-- Structural induction over the nested node type: to prove `P` for a node
it suffices to prove it from `P` of every child. -/
theorem TNode.inductionOn {P : TNode → Prop}
    (h : ∀ g k a nm dv sy uc rt cs, (∀ c ∈ cs, P c) →
      P (.mk g k a nm dv sy uc rt cs)) :
    ∀ n, P n
  | .mk g k a nm dv sy uc rt cs =>
    h g k a nm dv sy uc rt cs (fun c hc =>
      have : sizeOf c < sizeOf (TNode.mk g k a nm dv sy uc rt cs) := by
        have hlt := List.sizeOf_lt_of_mem hc
        simp only [TNode.mk.sizeOf_spec]
        omega
      TNode.inductionOn h c)
termination_by n => sizeOf n

/-- A guid has a depth in a subtree exactly when `findNode` finds it there. -/
theorem depthOf_none_iff_findNode_none (n : TNode) :
    ∀ g d, (depthOf n g d = none ↔ findNode n g = none) := by
  induction n using TNode.inductionOn with
  | h ng k a nm dv sy uc rt cs ih =>
    intro g d
    rw [depthOf, findNode]
    by_cases hg : ng = g
    · simp [hg]
    · simp only [hg, if_false]
      clear hg
      induction cs with
      | nil => simp [depthOfList, findNodeList]
      | cons c rest ihl =>
        rw [depthOfList, findNodeList]
        have hc := ih c (by simp)
        cases hdc : depthOf c g (d + 1) with
        | some lv =>
          have : findNode c g ≠ none := by
            intro hn
            rw [(hc g (d + 1)).2 hn] at hdc
            exact Option.noConfusion hdc
          cases hfc : findNode c g with
          | some m => simp
          | none => exact absurd hfc this
        | none =>
          rw [(hc g (d + 1)).1 hdc]
          exact ihl (fun c hc' => ih c (by simp [hc']))

/-- If a guid is absent from the local tree, its reported level is −1. -/
theorem levelOrNegOne_of_absent (t : Tree) (g : Guid)
    (h : t.nodeForGuid g = none) : levelOrNegOne t g = -1 := by
  rw [levelOrNegOne, (depthOf_none_iff_findNode_none t.root g 0).2 h]

/-- A duplicate-free list counts an element it contains exactly once. -/
theorem countP_eq_one_of_nodup_mem {g : Guid} :
    ∀ l : List Guid, l.Nodup → g ∈ l →
      l.countP (fun x => decide (x = g)) = 1 := by
  intro l
  induction l with
  | nil => intro _ hmem; cases hmem
  | cons a rest ih =>
    intro hnd hmem
    rw [List.countP_cons]
    by_cases hag : a = g
    · have hgr : g ∉ rest := fun hg => (List.nodup_cons.1 hnd).1 (hag ▸ hg)
      have hz : rest.countP (fun x => decide (x = g)) = 0 := by
        rw [List.countP_eq_zero]
        intro b hb
        simp only [decide_eq_true_eq]
        intro hbg
        exact hgr (hbg ▸ hb)
      simp [hz, hag]
    · have hgrest : g ∈ rest := by
        rcases List.mem_cons.1 hmem with h | h
        · exact absurd h.symm hag
        · exact h
      rw [ih (List.nodup_cons.1 hnd).2 hgrest]
      simp [hag]

/-- C5: the public `deletions()` iterator yields, for every guid in
`delete_locally \ delete_remotely`, a `Deletion` with
`should_upload_tombstone = false`; for every guid in `delete_remotely` (the
entire set), a `Deletion` with `should_upload_tombstone = true`; every
yielded `Deletion` carries the guid's local-tree level (−1 when absent, by
`levelOrNegOne_of_absent`); and a guid present in both sets yields exactly
one `Deletion`, which comes from the remote iteration. -/
theorem c5_deletions_iterator (st : MState) (t : Tree)
    (hnd : st.deleteRemotely.Nodup) :
    (∀ g ∈ st.deleteLocally, g ∉ st.deleteRemotely →
      Deletion.mk g (levelOrNegOne t g) false ∈ deletionsList st t) ∧
    (∀ g ∈ st.deleteRemotely,
      Deletion.mk g (levelOrNegOne t g) true ∈ deletionsList st t) ∧
    (∀ d ∈ deletionsList st t, d.localLevel = levelOrNegOne t d.guid) ∧
    (∀ g ∈ st.deleteLocally, g ∈ st.deleteRemotely →
      (deletionsList st t).countP (fun d => decide (d.guid = g)) = 1 ∧
      ∀ d ∈ deletionsList st t, d.guid = g →
        d.shouldUploadTombstone = true) := by
  refine ⟨?_, ?_, ?_, ?_⟩
  · intro g hl hr
    simp only [deletionsList, localDeletions, List.mem_append, List.mem_map,
      List.mem_filter]
    exact Or.inl ⟨g, ⟨hl, by simpa using hr⟩, rfl⟩
  · intro g hr
    simp only [deletionsList, remoteDeletions, List.mem_append, List.mem_map]
    exact Or.inr ⟨g, hr, rfl⟩
  · intro d hd
    simp only [deletionsList, localDeletions, remoteDeletions,
      List.mem_append, List.mem_map, List.mem_filter] at hd
    rcases hd with ⟨g, _, rfl⟩ | ⟨g, _, rfl⟩ <;> rfl
  · intro g _ hr
    constructor
    · rw [deletionsList, List.countP_append]
      have hloc : (localDeletions st t).countP
          (fun d => decide (d.guid = g)) = 0 := by
        rw [List.countP_eq_zero]
        intro d hd
        simp only [localDeletions, List.mem_map, List.mem_filter] at hd
        rcases hd with ⟨g', ⟨_, hg'⟩, rfl⟩
        simp only [decide_eq_true_eq] at hg' ⊢
        intro hgg
        rw [hgg] at hg'
        exact hg' hr
      have hrem : (remoteDeletions st t).countP
          (fun d => decide (d.guid = g)) = 1 := by
        rw [remoteDeletions, List.countP_map]
        exact countP_eq_one_of_nodup_mem st.deleteRemotely hnd hr
      rw [hloc, hrem]
    · intro d hd hguid
      simp only [deletionsList, localDeletions, remoteDeletions,
        List.mem_append, List.mem_map, List.mem_filter] at hd
      rcases hd with ⟨g', ⟨_, hg'⟩, rfl⟩ | ⟨g', _, rfl⟩
      · simp only [decide_eq_true_eq] at hg'
        have hgg : g' = g := hguid
        subst hgg
        exact absurd hr hg'
      · rfl

/-- Witness for C5 at a concrete state: `delete_locally = [7, 9]`,
`delete_remotely = [9, 4]`, over a one-node local tree containing guid 7. -/
theorem c5_deletions_iterator_witness :
    (Deletion.mk 7 (levelOrNegOne ⟨rootN 7 [], []⟩ 7) false ∈
      deletionsList ⟨[], [7, 9], [9, 4], .zero, [], []⟩ ⟨rootN 7 [], []⟩) ∧
    (Deletion.mk 9 (levelOrNegOne ⟨rootN 7 [], []⟩ 9) true ∈
      deletionsList ⟨[], [7, 9], [9, 4], .zero, [], []⟩ ⟨rootN 7 [], []⟩) ∧
    (deletionsList ⟨[], [7, 9], [9, 4], .zero, [], []⟩
      ⟨rootN 7 [], []⟩).countP (fun d => decide (d.guid = 9)) = 1 := by
  have h := c5_deletions_iterator ⟨[], [7, 9], [9, 4], .zero, [], []⟩
    ⟨rootN 7 [], []⟩ (by decide)
  exact ⟨h.1 7 (by decide) (by decide), h.2.1 9 (by decide),
    (h.2.2.2 9 (by decide) (by decide)).1⟩

/-! ## State monotonicity

The merger only ever inserts into `merged_guids`, `delete_locally` and
`delete_remotely`; no call removes an element.  `stLe` captures that and is
proved below for every function of the walk. -/

/-- Componentwise order on the telemetry counters. -/
def countsLe (c1 c2 : StructureCounts) : Prop :=
  c1.remoteRevives ≤ c2.remoteRevives ∧ c1.localDeletes ≤ c2.localDeletes ∧
  c1.localRevives ≤ c2.localRevives ∧ c1.remoteDeletes ≤ c2.remoteDeletes ∧
  c1.dupes ≤ c2.dupes

theorem countsLe_refl (c : StructureCounts) : countsLe c c :=
  ⟨le_refl _, le_refl _, le_refl _, le_refl _, le_refl _⟩

theorem countsLe_trans {c1 c2 c3 : StructureCounts} (h12 : countsLe c1 c2)
    (h23 : countsLe c2 c3) : countsLe c1 c3 :=
  ⟨le_trans h12.1 h23.1, le_trans h12.2.1 h23.2.1,
   le_trans h12.2.2.1 h23.2.2.1, le_trans h12.2.2.2.1 h23.2.2.2.1,
   le_trans h12.2.2.2.2 h23.2.2.2.2⟩

/-- The three guid sets of the first state are contained in those of the
second, and its counters are no larger. -/
def stLe (s1 s2 : MState) : Prop :=
  (∀ g, g ∈ s1.mergedGuids → g ∈ s2.mergedGuids) ∧
  (∀ g, g ∈ s1.deleteLocally → g ∈ s2.deleteLocally) ∧
  (∀ g, g ∈ s1.deleteRemotely → g ∈ s2.deleteRemotely) ∧
  countsLe s1.structureCounts s2.structureCounts

theorem stLe_refl (s : MState) : stLe s s :=
  ⟨fun _ h => h, fun _ h => h, fun _ h => h, countsLe_refl _⟩

theorem stLe_trans {s1 s2 s3 : MState} (h12 : stLe s1 s2) (h23 : stLe s2 s3) :
    stLe s1 s3 :=
  ⟨fun g h => h23.1 g (h12.1 g h), fun g h => h23.2.1 g (h12.2.1 g h),
   fun g h => h23.2.2.1 g (h12.2.2.1 g h),
   countsLe_trans h12.2.2.2 h23.2.2.2⟩

theorem mem_insertG_of_mem {g' g : Guid} {s : List Guid} (h : g' ∈ s) :
    g' ∈ insertG g s := by
  rw [insertG]
  split
  · exact h
  · exact List.mem_cons_of_mem g h

theorem mem_insertG_self (g : Guid) (s : List Guid) : g ∈ insertG g s := by
  rw [insertG]
  split
  · assumption
  · exact List.mem_cons_self g s

theorem stLe_insMergedGuid (g : Guid) (s : MState) :
    stLe s (insMergedGuid g s) :=
  ⟨fun _ h => mem_insertG_of_mem h, fun _ h => h, fun _ h => h,
   countsLe_refl _⟩

theorem stLe_insDeleteLocally (g : Guid) (s : MState) :
    stLe s (insDeleteLocally g s) :=
  ⟨fun _ h => h, fun _ h => mem_insertG_of_mem h, fun _ h => h,
   countsLe_refl _⟩

theorem stLe_insDeleteRemotely (g : Guid) (s : MState) :
    stLe s (insDeleteRemotely g s) :=
  ⟨fun _ h => h, fun _ h => h, fun _ h => mem_insertG_of_mem h,
   countsLe_refl _⟩

theorem stLe_bumpRemoteRevives (s : MState) : stLe s (bumpRemoteRevives s) :=
  ⟨fun _ h => h, fun _ h => h, fun _ h => h,
   Nat.le_succ _, le_refl _, le_refl _, le_refl _, le_refl _⟩

theorem stLe_bumpLocalDeletes (s : MState) : stLe s (bumpLocalDeletes s) :=
  ⟨fun _ h => h, fun _ h => h, fun _ h => h,
   le_refl _, Nat.le_succ _, le_refl _, le_refl _, le_refl _⟩

theorem stLe_bumpLocalRevives (s : MState) : stLe s (bumpLocalRevives s) :=
  ⟨fun _ h => h, fun _ h => h, fun _ h => h,
   le_refl _, le_refl _, Nat.le_succ _, le_refl _, le_refl _⟩

theorem stLe_bumpRemoteDeletes (s : MState) : stLe s (bumpRemoteDeletes s) :=
  ⟨fun _ h => h, fun _ h => h, fun _ h => h,
   le_refl _, le_refl _, le_refl _, Nat.le_succ _, le_refl _⟩

theorem stLe_bumpLocalDeletes_opt (c : Bool) (s : MState) :
    stLe s (if c then bumpLocalDeletes s else s) := by
  split
  · exact stLe_bumpLocalDeletes s
  · exact stLe_refl s

theorem stLe_bumpRemoteDeletes_opt (c : Bool) (s : MState) :
    stLe s (if c then bumpRemoteDeletes s else s) := by
  split
  · exact stLe_bumpRemoteDeletes s
  · exact stLe_refl s

/-- `cacheEnsure` only touches the dedup cache. -/
theorem stLe_cacheEnsure (env : MergerEnv) (st : MState) (lp rp : TNode) :
    stLe st (cacheEnsure env st lp rp).2 := by
  rw [cacheEnsure]
  split
  · exact stLe_refl st
  · exact ⟨fun _ h => h, fun _ h => h, fun _ h => h, countsLe_refl _⟩

/-- The dedup retrieval functions only touch the cache, the `dupes` counter
and the ghost pair list; the guid sets are untouched. -/
theorem stLe_findRemoteNodeMatchingLocalNode (env : MergerEnv)
    (mn : MergedNode) (lp : TNode) (rp : Option TNode) (lc : TNode)
    (st : MState) :
    stLe st (findRemoteNodeMatchingLocalNode env mn lp rp lc st).2 := by
  rw [findRemoteNodeMatchingLocalNode.eq_def]
  cases rp with
  | none => exact stLe_refl st
  | some rpn =>
    simp only
    rcases hce : cacheEnsure env st lp rpn with ⟨md, st1⟩
    have h1 : stLe st st1 := by
      have := stLe_cacheEnsure env st lp rpn
      rw [hce] at this
      exact this
    cases haf : assocFind md.localToRemote lc.guid with
    | some rn =>
      simp only [haf]
      exact stLe_trans h1 ⟨fun _ h => h, fun _ h => h, fun _ h => h,
        le_refl _, le_refl _, le_refl _, le_refl _, Nat.le_succ _⟩
    | none =>
      simp only [haf]
      exact h1

theorem stLe_findLocalNodeMatchingRemoteNode (env : MergerEnv)
    (mn : MergedNode) (lp : Option TNode) (rp : TNode) (rc : TNode)
    (st : MState) :
    stLe st (findLocalNodeMatchingRemoteNode env mn lp rp rc st).2 := by
  rw [findLocalNodeMatchingRemoteNode.eq_def]
  cases lp with
  | none => exact stLe_refl st
  | some lpn =>
    simp only
    rcases hce : cacheEnsure env st lpn rp with ⟨md, st1⟩
    have h1 : stLe st st1 := by
      have := stLe_cacheEnsure env st lpn rp
      rw [hce] at this
      exact this
    cases haf : assocFind md.remoteToLocal rc.guid with
    | some ln =>
      simp only [haf]
      exact stLe_trans h1 ⟨fun _ h => h, fun _ h => h, fun _ h => h,
        le_refl _, le_refl _, le_refl _, le_refl _, Nat.le_succ _⟩
    | none =>
      simp only [haf]
      exact h1

/-- Monotonicity of the three guid sets, proved simultaneously for every
function of the merge walk by induction on fuel. -/
theorem stLe_walk (env : MergerEnv) : ∀ fuel : Nat,
    (∀ l r st mn st',
      twoWayMerge env fuel l r st = .ok (mn, st') → stLe st st') ∧
    (∀ mn lp rp cs st mn' st',
      walkLocalChildren env fuel mn lp rp cs st = .ok (mn', st') →
        stLe st st') ∧
    (∀ mn lp rp cs st mn' st',
      walkRemoteChildren env fuel mn lp rp cs st = .ok (mn', st') →
        stLe st st') ∧
    (∀ l st mn st',
      mergeLocalNode env fuel l st = .ok (mn, st') → stLe st st') ∧
    (∀ r st mn st',
      mergeRemoteNode env fuel r st = .ok (mn, st') → stLe st st') ∧
    (∀ mn lp rp rc st mn' st',
      mergeRemoteChildIntoMergedNode env fuel mn lp rp rc st = .ok (mn', st') →
        stLe st st') ∧
    (∀ mn lp rp lc st mn' st',
      mergeLocalChildIntoMergedNode env fuel mn lp rp lc st = .ok (mn', st') →
        stLe st st') ∧
    (∀ mn rp r st c mn' st',
      checkForLocalStructureChangeOfRemoteNode env fuel mn rp r st =
        .ok (c, mn', st') → stLe st st') ∧
    (∀ mn lp l st c mn' st',
      checkForRemoteStructureChangeOfLocalNode env fuel mn lp l st =
        .ok (c, mn', st') → stLe st st') ∧
    (∀ mn r cs st mn' st',
      relocateRemoteOrphansToMergedNode env fuel mn r cs st = .ok (mn', st') →
        stLe st st') ∧
    (∀ mn l cs st mn' st',
      relocateLocalOrphansToMergedNode env fuel mn l cs st = .ok (mn', st') →
        stLe st st') := by
  intro fuel
  induction fuel with
  | zero =>
    refine ⟨?_, ?_, ?_, ?_, ?_, ?_, ?_, ?_, ?_, ?_, ?_⟩ <;>
      (intros; rename_i h;
       simp [twoWayMerge, walkLocalChildren, walkRemoteChildren,
         mergeLocalNode, mergeRemoteNode, mergeRemoteChildIntoMergedNode,
         mergeLocalChildIntoMergedNode,
         checkForLocalStructureChangeOfRemoteNode,
         checkForRemoteStructureChangeOfLocalNode,
         relocateRemoteOrphansToMergedNode,
         relocateLocalOrphansToMergedNode] at h)
  | succ fuel ih =>
    obtain ⟨ihTW, ihWL, ihWR, ihMLN, ihMRN, ihMRC, ihMLC, ihCL, ihCR, ihRR,
      ihRL⟩ := ih
    refine ⟨?_, ?_, ?_, ?_, ?_, ?_, ?_, ?_, ?_, ?_, ?_⟩
    · -- twoWayMerge
      intro l r st mn st' h
      rw [twoWayMerge] at h
      split at h
      · by_cases hne : l.guid ≠ r.guid
        · simp only [if_pos hne] at h
          have hins : stLe st
              (insMergedGuid l.guid (insMergedGuid r.guid st)) :=
            stLe_trans (stLe_insMergedGuid _ _) (stLe_insMergedGuid _ _)
          split at h
          · split at h
            · simp at h
            · rename_i mn1 st1 heq
              exact stLe_trans (stLe_trans hins (ihWL _ _ _ _ _ _ _ heq))
                (ihWR _ _ _ _ _ _ _ h)
          · split at h
            · simp at h
            · rename_i mn1 st1 heq
              exact stLe_trans (stLe_trans hins (ihWR _ _ _ _ _ _ _ heq))
                (ihWL _ _ _ _ _ _ _ h)
        · simp only [if_neg hne] at h
          have hins : stLe st (insMergedGuid r.guid st) :=
            stLe_insMergedGuid _ _
          split at h
          · split at h
            · simp at h
            · rename_i mn1 st1 heq
              exact stLe_trans (stLe_trans hins (ihWL _ _ _ _ _ _ _ heq))
                (ihWR _ _ _ _ _ _ _ h)
          · split at h
            · simp at h
            · rename_i mn1 st1 heq
              exact stLe_trans (stLe_trans hins (ihWR _ _ _ _ _ _ _ heq))
                (ihWL _ _ _ _ _ _ _ h)
      · simp at h
    · -- walkLocalChildren
      intro mn lp rp cs st mn' st' h
      cases cs with
      | nil =>
        rw [walkLocalChildren] at h
        cases h
        exact stLe_refl _
      | cons c rest =>
        rw [walkLocalChildren] at h
        split at h
        · simp at h
        · rename_i mn1 st1 heq
          exact stLe_trans (ihMLC _ _ _ _ _ _ _ heq) (ihWL _ _ _ _ _ _ _ h)
    · -- walkRemoteChildren
      intro mn lp rp cs st mn' st' h
      cases cs with
      | nil =>
        rw [walkRemoteChildren] at h
        cases h
        exact stLe_refl _
      | cons c rest =>
        rw [walkRemoteChildren] at h
        split at h
        · simp at h
        · rename_i mn1 st1 heq
          exact stLe_trans (ihMRC _ _ _ _ _ _ _ heq) (ihWR _ _ _ _ _ _ _ h)
    · -- mergeLocalNode
      intro l st mn st' h
      rw [mergeLocalNode] at h
      split at h
      · simp at h
      · rename_i g1 st1 heq
        have hst1 : stLe (insMergedGuid l.guid st) st1 := by
          split at heq
          · rw [Except.ok.injEq, Prod.mk.injEq] at heq
            obtain ⟨-, h1⟩ := heq
            subst h1
            exact stLe_refl _
          · split at heq
            · simp at heq
            · split at heq
              · rw [Except.ok.injEq, Prod.mk.injEq] at heq
                obtain ⟨-, h1⟩ := heq
                subst h1
                exact stLe_insMergedGuid _ _
              · rw [Except.ok.injEq, Prod.mk.injEq] at heq
                obtain ⟨-, h1⟩ := heq
                subst h1
                exact stLe_refl _
        have hpre : stLe st st1 :=
          stLe_trans (stLe_insMergedGuid _ _) hst1
        split at h
        · exact stLe_trans hpre (ihWL _ _ _ _ _ _ _ h)
        · cases h
          exact hpre
    · -- mergeRemoteNode
      intro r st mn st' h
      rw [mergeRemoteNode] at h
      split at h
      · simp at h
      · rename_i g1 st1 heq
        have hst1 : stLe (insMergedGuid r.guid st) st1 := by
          split at heq
          · rw [Except.ok.injEq, Prod.mk.injEq] at heq
            obtain ⟨-, h1⟩ := heq
            subst h1
            exact stLe_refl _
          · split at heq
            · simp at heq
            · split at heq
              · rw [Except.ok.injEq, Prod.mk.injEq] at heq
                obtain ⟨-, h1⟩ := heq
                subst h1
                exact stLe_trans (stLe_insMergedGuid _ _)
                  (stLe_insDeleteRemotely _ _)
              · rw [Except.ok.injEq, Prod.mk.injEq] at heq
                obtain ⟨-, h1⟩ := heq
                subst h1
                exact stLe_refl _
        have hpre : stLe st st1 :=
          stLe_trans (stLe_insMergedGuid _ _) hst1
        split at h
        · exact stLe_trans hpre (ihWR _ _ _ _ _ _ _ h)
        · cases h
          exact hpre
    · -- mergeRemoteChildIntoMergedNode
      intro mn lp rp rc st mn' st' h
      rw [mergeRemoteChildIntoMergedNode] at h
      split at h
      · cases h
        exact stLe_refl _
      · split at h
        · simp at h
        · rename_i chg1 mn1 st1 heq
          have hchk := ihCL _ _ _ _ _ _ _ heq
          split at h
          · cases h
            exact hchk
          · split at h
            · -- exists locally
              split at h
              · simp at h
              · split at h
                · -- local parent deleted remotely
                  split at h
                  · simp at h
                  · rename_i mc1 st2 heq2
                    cases h
                    exact stLe_trans hchk (ihTW _ _ _ _ _ heq2)
                · split at h
                  · cases h
                    exact hchk
                  · split at h
                    · simp at h
                    · rename_i mc1 st2 heq2
                      cases h
                      exact stLe_trans hchk (ihTW _ _ _ _ _ heq2)
            · -- dedup path
              split at h
              rename_i found1 st2 heq1
              have hf : stLe st1 st2 := by
                have hle := stLe_findLocalNodeMatchingRemoteNode env mn1 lp rp
                  rc st1
                rw [heq1] at hle
                exact hle
              cases found1 with
              | some localMatch =>
                split at h
                · simp at h
                · rename_i mc1 st3 heq2
                  cases h
                  exact stLe_trans hchk (stLe_trans hf (ihTW _ _ _ _ _ heq2))
              | none =>
                split at h
                · simp at h
                · rename_i mc1 st3 heq2
                  cases h
                  exact stLe_trans hchk (stLe_trans hf (ihMRN _ _ _ _ heq2))
    · -- mergeLocalChildIntoMergedNode
      intro mn lp rp lc st mn' st' h
      rw [mergeLocalChildIntoMergedNode] at h
      split at h
      · cases h
        exact stLe_refl _
      · split at h
        · simp at h
        · rename_i chg1 mn1 st1 heq
          have hchk := ihCR _ _ _ _ _ _ _ heq
          split at h
          · cases h
            exact hchk
          · split at h
            · -- exists remotely
              split at h
              · simp at h
              · split at h
                · -- remote parent deleted locally
                  split at h
                  · simp at h
                  · rename_i mc1 st2 heq2
                    cases h
                    exact stLe_trans hchk (ihTW _ _ _ _ _ heq2)
                · split at h
                  · -- structure conflict: local wins
                    split at h
                    · split at h
                      · simp at h
                      · rename_i mc1 st2 heq2
                        cases h
                        exact stLe_trans hchk (ihTW _ _ _ _ _ heq2)
                    · split at h
                      · simp at h
                      · rename_i mc1 st2 heq2
                        cases h
                        exact stLe_trans hchk (ihTW _ _ _ _ _ heq2)
                  · cases h
                    exact hchk
            · -- dedup path
              split at h
              · -- a remote content match was found
                rename_i remoteMatch st2 heq1
                have hf : stLe st1 st2 := by
                  have hle := stLe_findRemoteNodeMatchingLocalNode env mn1 lp
                    rp lc st1
                  rw [heq1] at hle
                  exact hle
                split at h
                · simp at h
                · rename_i mc1 st3 heq2
                  have htw := ihTW _ _ _ _ _ heq2
                  split at h
                  · cases h
                    exact stLe_trans hchk (stLe_trans hf htw)
                  · cases h
                    exact stLe_trans hchk (stLe_trans hf htw)
              · -- no content match: merge the local-only subtree
                rename_i st2 heq1
                have hf : stLe st1 st2 := by
                  have hle := stLe_findRemoteNodeMatchingLocalNode env mn1 lp
                    rp lc st1
                  rw [heq1] at hle
                  exact hle
                split at h
                · simp at h
                · rename_i mc1 st3 heq2
                  cases h
                  exact stLe_trans hchk (stLe_trans hf (ihMLN _ _ _ _ heq2))
    · -- checkForLocalStructureChangeOfRemoteNode
      intro mn rp r st c mn' st' h
      rw [checkForLocalStructureChangeOfRemoteNode] at h
      simp only [] at h
      split at h
      · -- non-syncable
        split at h
        · split at h
          · simp at h
          · rename_i mn1 st1 heq
            cases h
            exact stLe_trans (stLe_insDeleteRemotely _ _)
              (ihRR _ _ _ _ _ _ heq)
        · cases h
          exact stLe_insDeleteRemotely _ _
      · split at h
        · -- not deleted locally
          split at h
          · -- local node exists
            split at h
            · -- local node non-syncable
              split at h
              · split at h
                · simp at h
                · rename_i mn1 st1 heq
                  cases h
                  exact stLe_trans (stLe_insDeleteRemotely _ _)
                    (ihRR _ _ _ _ _ _ heq)
              · cases h
                exact stLe_insDeleteRemotely _ _
            · split at h
              · simp at h
              · split at h
                · cases h
                  exact stLe_refl _
                · cases h
                  exact stLe_refl _
          · cases h
            exact stLe_refl _
        · -- tombstoned locally
          split at h
          · cases h
            exact stLe_bumpRemoteRevives _
          · have hpre : stLe st (insDeleteRemotely r.guid
                (if r.needsMerge then bumpLocalDeletes st else st)) :=
              stLe_trans (stLe_bumpLocalDeletes_opt _ _)
                (stLe_insDeleteRemotely _ _)
            split at h
            · split at h
              · simp at h
              · rename_i mn1 st1 heq
                cases h
                exact stLe_trans hpre (ihRR _ _ _ _ _ _ heq)
            · cases h
              exact hpre
    · -- checkForRemoteStructureChangeOfLocalNode
      intro mn lp l st c mn' st' h
      rw [checkForRemoteStructureChangeOfLocalNode] at h
      simp only [] at h
      split at h
      · split at h
        · split at h
          · simp at h
          · rename_i mn1 st1 heq
            cases h
            exact stLe_trans (stLe_insDeleteLocally _ _)
              (ihRL _ _ _ _ _ _ heq)
        · cases h
          exact stLe_insDeleteLocally _ _
      · split at h
        · split at h
          · split at h
            · split at h
              · split at h
                · simp at h
                · rename_i mn1 st1 heq
                  cases h
                  exact stLe_trans (stLe_insDeleteLocally _ _)
                    (ihRL _ _ _ _ _ _ heq)
              · cases h
                exact stLe_insDeleteLocally _ _
            · split at h
              · simp at h
              · split at h
                · cases h
                  exact stLe_refl _
                · cases h
                  exact stLe_refl _
          · cases h
            exact stLe_refl _
        · split at h
          · cases h
            exact stLe_bumpLocalRevives _
          · have hpre : stLe st (insDeleteLocally l.guid
                (if l.needsMerge then bumpRemoteDeletes st else st)) :=
              stLe_trans (stLe_bumpRemoteDeletes_opt _ _)
                (stLe_insDeleteLocally _ _)
            split at h
            · split at h
              · simp at h
              · rename_i mn1 st1 heq
                cases h
                exact stLe_trans hpre (ihRL _ _ _ _ _ _ heq)
            · cases h
              exact hpre
    · -- relocateRemoteOrphansToMergedNode
      intro mn r cs st mn' st' h
      cases cs with
      | nil =>
        rw [relocateRemoteOrphansToMergedNode] at h
        cases h
        exact stLe_refl _
      | cons c rest =>
        rw [relocateRemoteOrphansToMergedNode] at h
        split at h
        · exact ihRR _ _ _ _ _ _ h
        · split at h
          · simp at h
          · rename_i chg1 mn1 st1 heq
            have hchk := ihCL _ _ _ _ _ _ _ heq
            split at h
            · -- unchanged: relocate the orphan
              split at h
              · simp at h
              · rename_i orphan st2 heq2
                have horj : stLe st1 st2 := by
                  cases hfn : findNode env.localTree.root c.guid with
                  | some lc =>
                    rw [hfn] at heq2
                    exact ihTW _ _ _ _ _ heq2
                  | none =>
                    rw [hfn] at heq2
                    exact ihMRN _ _ _ _ heq2
                exact stLe_trans hchk (stLe_trans horj (ihRR _ _ _ _ _ _ h))
            all_goals exact stLe_trans hchk (ihRR _ _ _ _ _ _ h)
    · -- relocateLocalOrphansToMergedNode
      intro mn l cs st mn' st' h
      cases cs with
      | nil =>
        rw [relocateLocalOrphansToMergedNode] at h
        cases h
        exact stLe_refl _
      | cons c rest =>
        rw [relocateLocalOrphansToMergedNode] at h
        split at h
        · exact ihRL _ _ _ _ _ _ h
        · split at h
          · simp at h
          · rename_i chg1 mn1 st1 heq
            have hchk := ihCR _ _ _ _ _ _ _ heq
            split at h
            · split at h
              · simp at h
              · rename_i orphan st2 heq2
                have horj : stLe st1 st2 := by
                  cases hfn : findNode env.remoteTree.root c.guid with
                  | some rc =>
                    rw [hfn] at heq2
                    exact ihTW _ _ _ _ _ heq2
                  | none =>
                    rw [hfn] at heq2
                    exact ihMLN _ _ _ _ heq2
                exact stLe_trans hchk (stLe_trans horj (ihRL _ _ _ _ _ _ h))
            all_goals exact stLe_trans hchk (ihRL _ _ _ _ _ _ h)

/-- Monotonicity, specialised to remote-orphan relocation. -/
theorem relocateRemoteOrphans_stLe {env : MergerEnv} {fuel : Nat}
    {mn : MergedNode} {r : TNode} {cs : List TNode} {st : MState}
    {mn' : MergedNode} {st' : MState}
    (h : relocateRemoteOrphansToMergedNode env fuel mn r cs st =
      .ok (mn', st')) : stLe st st' :=
  (stLe_walk env fuel).2.2.2.2.2.2.2.2.2.1 mn r cs st mn' st' h

/-- Monotonicity, specialised to local-orphan relocation. -/
theorem relocateLocalOrphans_stLe {env : MergerEnv} {fuel : Nat}
    {mn : MergedNode} {l : TNode} {cs : List TNode} {st : MState}
    {mn' : MergedNode} {st' : MState}
    (h : relocateLocalOrphansToMergedNode env fuel mn l cs st =
      .ok (mn', st')) : stLe st st' :=
  (stLe_walk env fuel).2.2.2.2.2.2.2.2.2.2 mn l cs st mn' st' h

/-! ## C2 — the tombstone-versus-change step of the remote detector -/

/-- Under "syncable and locally tombstoned", the remote structure-change
detector reduces to its tombstone-versus-change step: a changed non-folder
revives (no insertion, `remote_revives` + 1); otherwise the local deletion
wins — `local_deletes` + 1 exactly when the folder changed — the guid is
inserted into `delete_remotely`, orphans of a folder are relocated, and the
call reports `Deleted`. -/
theorem checkLocal_tombstone_eq (env : MergerEnv) (fuel : Nat)
    (mn : MergedNode) (rp r : TNode) (st : MState)
    (hs : r.isSyncable = true) (hd : env.localTree.isDeleted r.guid = true) :
    checkForLocalStructureChangeOfRemoteNode env (fuel + 1) mn rp r st =
      if r.needsMerge && !r.isFolder then
        .ok (.unchanged, mn, bumpRemoteRevives st)
      else
        if r.isFolder then
          match relocateRemoteOrphansToMergedNode env fuel mn r r.children
            (insDeleteRemotely r.guid
              (if r.needsMerge then bumpLocalDeletes st else st)) with
          | .error e => .error e
          | .ok (mn2, st2) => .ok (.deleted, mn2, st2)
        else
          .ok (.deleted, mn, insDeleteRemotely r.guid
            (if r.needsMerge then bumpLocalDeletes st else st)) := by
  rw [checkForLocalStructureChangeOfRemoteNode]
  simp only [hs, hd, Bool.not_true, Bool.false_eq_true, if_false]

/-- The mirrored reduction for the local detector (remote tombstone). -/
theorem checkRemote_tombstone_eq (env : MergerEnv) (fuel : Nat)
    (mn : MergedNode) (lp l : TNode) (st : MState)
    (hs : l.isSyncable = true) (hd : env.remoteTree.isDeleted l.guid = true) :
    checkForRemoteStructureChangeOfLocalNode env (fuel + 1) mn lp l st =
      if l.needsMerge && !l.isFolder then
        .ok (.unchanged, mn, bumpLocalRevives st)
      else
        if l.isFolder then
          match relocateLocalOrphansToMergedNode env fuel mn l l.children
            (insDeleteLocally l.guid
              (if l.needsMerge then bumpRemoteDeletes st else st)) with
          | .error e => .error e
          | .ok (mn2, st2) => .ok (.deleted, mn2, st2)
        else
          .ok (.deleted, mn, insDeleteLocally l.guid
            (if l.needsMerge then bumpRemoteDeletes st else st)) := by
  rw [checkForRemoteStructureChangeOfLocalNode]
  simp only [hs, hd, Bool.not_true, Bool.false_eq_true, if_false]

/-- A non-syncable remote node that is locally tombstoned, remotely changed
and not a folder: the detector hits the non-syncable branch first, inserts
the guid into `delete_remotely` and returns `Deleted` — not the
`remote_revives` + `Unchanged` outcome the claim asserts for every call with
a local tombstone. -/
def c2BadNode : TNode := .mk 5 .bookmark 0 true false false false false []

def c2Env : MergerEnv :=
  envOf ⟨rootN 1 [], [5]⟩ ⟨rootN 1 [], []⟩

theorem c2_counterexample :
    c2Env.localTree.isDeleted c2BadNode.guid = true ∧
    c2BadNode.needsMerge = true ∧
    c2BadNode.isFolder = false ∧
    checkForLocalStructureChangeOfRemoteNode c2Env 10 (mnEmpty 1) (rootN 1 [])
      c2BadNode initState =
      .ok (.deleted, mnEmpty 1, { initState with deleteRemotely := [5] }) ∧
    StructureChange.deleted ≠ StructureChange.unchanged ∧
    (5 : Guid) ∈ ({ initState with deleteRemotely := [5] } :
      MState).deleteRemotely ∧
    ({ initState with deleteRemotely := [5] } :
      MState).structureCounts.remoteRevives = 0 :=
  ⟨rfl, rfl, rfl, rfl, by decide, by decide, rfl⟩

/-- C2 (amended): for every call of the remote structure-change detector on
a node that is syncable and whose guid the local tree tombstones: if the node
changed remotely and is not a folder, the call returns `Unchanged` with
exactly `remote_revives` incremented and nothing else touched; if it changed
and is a folder, the tombstone step adds one to `local_deletes` and inserts
the guid into `delete_remotely` before relocating orphans (which may modify
state further), and the call reports `Deleted`; if it did not change, the
guid is inserted and `Deleted` reported with no counter touched by the
tombstone step itself.  On every `Deleted` outcome the guid is in the final
`delete_remotely`, and `local_deletes` grew by at least one when the folder
had changed. -/
theorem c2_tombstone_versus_change (env : MergerEnv) (fuel : Nat)
    (mn : MergedNode) (rp r : TNode) (st : MState)
    (hs : r.isSyncable = true) (hd : env.localTree.isDeleted r.guid = true) :
    (r.needsMerge = true → r.isFolder = false →
      checkForLocalStructureChangeOfRemoteNode env (fuel + 1) mn rp r st =
        .ok (.unchanged, mn, bumpRemoteRevives st)) ∧
    (r.needsMerge = true → r.isFolder = true →
      checkForLocalStructureChangeOfRemoteNode env (fuel + 1) mn rp r st =
        match relocateRemoteOrphansToMergedNode env fuel mn r r.children
          (insDeleteRemotely r.guid (bumpLocalDeletes st)) with
        | .error e => .error e
        | .ok (mn2, st2) => .ok (.deleted, mn2, st2)) ∧
    (r.needsMerge = false →
      checkForLocalStructureChangeOfRemoteNode env (fuel + 1) mn rp r st =
        if r.isFolder then
          match relocateRemoteOrphansToMergedNode env fuel mn r r.children
            (insDeleteRemotely r.guid st) with
          | .error e => .error e
          | .ok (mn2, st2) => .ok (.deleted, mn2, st2)
        else
          .ok (.deleted, mn, insDeleteRemotely r.guid st)) ∧
    (∀ c mn' st',
      checkForLocalStructureChangeOfRemoteNode env (fuel + 1) mn rp r st =
        .ok (c, mn', st') → c = .deleted →
      r.guid ∈ st'.deleteRemotely ∧
      (r.needsMerge = true →
        st.structureCounts.localDeletes + 1 ≤
          st'.structureCounts.localDeletes)) := by
  have hbase := checkLocal_tombstone_eq env fuel mn rp r st hs hd
  refine ⟨?_, ?_, ?_, ?_⟩
  · intro hnm hf
    rw [hbase, hnm, hf]
    rfl
  · intro hnm hf
    rw [hbase, hnm, hf]
    rfl
  · intro hnm
    rw [hbase, hnm]
    cases hf : r.isFolder <;> rfl
  · intro c mn' st' h hc
    rw [hbase] at h
    by_cases hrev : (r.needsMerge && !r.isFolder) = true
    · rw [if_pos hrev] at h
      rw [Except.ok.injEq, Prod.mk.injEq] at h
      exact absurd (hc ▸ h.1.symm) (by decide)
    · rw [if_neg hrev] at h
      split at h
      · -- folder: deletion then relocation
        rename_i hfold
        split at h
        · simp at h
        · rename_i mn2 st2 heq
          rw [Except.ok.injEq, Prod.mk.injEq, Prod.mk.injEq] at h
          obtain ⟨-, -, hst⟩ := h
          subst hst
          have hle := relocateRemoteOrphans_stLe heq
          constructor
          · exact hle.2.2.1 r.guid (mem_insertG_self _ _)
          · intro hnm
            have := hle.2.2.2.2.1
            simp [insDeleteRemotely, hnm, bumpLocalDeletes] at this ⊢
            omega
      · -- non-folder deletion
        rename_i hfold
        rw [Except.ok.injEq, Prod.mk.injEq, Prod.mk.injEq] at h
        obtain ⟨-, -, hst⟩ := h
        subst hst
        constructor
        · exact mem_insertG_self _ _
        · intro hnm
          simp [insDeleteRemotely, hnm, bumpLocalDeletes]

/-- Witness for C2 (amended): a syncable changed non-folder with a local
tombstone revives, with `remote_revives` bumped and nothing inserted. -/
theorem c2_tombstone_versus_change_witness :
    checkForLocalStructureChangeOfRemoteNode c2Env 10 (mnEmpty 1)
      (rootN 1 []) (bookmarkN 5 true) initState =
      .ok (.unchanged, mnEmpty 1, bumpRemoteRevives initState) :=
  (c2_tombstone_versus_change c2Env 9 (mnEmpty 1) (rootN 1 [])
    (bookmarkN 5 true) initState rfl rfl).1 rfl rfl

/-! ## C10 — `Deleted` outcomes versus deletion-set insertions -/

/-- Frame property of the remote detector: a non-`Deleted` outcome leaves
`delete_remotely` exactly as it was; a `Deleted` outcome puts the node's
guid into it. -/
theorem checkLocal_deleteRemotely_frame (env : MergerEnv) (fuel : Nat)
    (mn : MergedNode) (rp r : TNode) (st : MState) :
    ∀ c mn' st',
      checkForLocalStructureChangeOfRemoteNode env fuel mn rp r st =
        .ok (c, mn', st') →
      (c ≠ .deleted → st'.deleteRemotely = st.deleteRemotely) ∧
      (c = .deleted → r.guid ∈ st'.deleteRemotely) := by
  intro c mn' st' h
  cases fuel with
  | zero =>
    rw [checkForLocalStructureChangeOfRemoteNode] at h
    simp at h
  | succ fuel =>
    rw [checkForLocalStructureChangeOfRemoteNode] at h
    simp only [] at h
    split at h
    · -- non-syncable: deleted
      split at h
      · split at h
        · simp at h
        · rename_i mn1 st1 heq
          cases h
          have hle := relocateRemoteOrphans_stLe heq
          exact ⟨fun hc => absurd rfl hc,
            fun _ => hle.2.2.1 r.guid (mem_insertG_self _ _)⟩
      · cases h
        exact ⟨fun hc => absurd rfl hc, fun _ => mem_insertG_self _ _⟩
    · split at h
      · -- not tombstoned locally
        split at h
        · split at h
          · -- local counterpart non-syncable: deleted
            split at h
            · split at h
              · simp at h
              · rename_i mn1 st1 heq
                cases h
                have hle := relocateRemoteOrphans_stLe heq
                exact ⟨fun hc => absurd rfl hc,
                  fun _ => hle.2.2.1 r.guid (mem_insertG_self _ _)⟩
            · cases h
              exact ⟨fun hc => absurd rfl hc, fun _ => mem_insertG_self _ _⟩
          · split at h
            · simp at h
            · split at h
              · cases h
                exact ⟨fun _ => rfl, fun hc => absurd hc (by decide)⟩
              · cases h
                exact ⟨fun _ => rfl, fun hc => absurd hc (by decide)⟩
        · cases h
          exact ⟨fun _ => rfl, fun hc => absurd hc (by decide)⟩
      · -- tombstoned locally
        split at h
        · cases h
          exact ⟨fun _ => rfl, fun hc => absurd hc (by decide)⟩
        · split at h
          · split at h
            · simp at h
            · rename_i mn1 st1 heq
              cases h
              have hle := relocateRemoteOrphans_stLe heq
              exact ⟨fun hc => absurd rfl hc,
                fun _ => hle.2.2.1 r.guid (mem_insertG_self _ _)⟩
          · cases h
            exact ⟨fun hc => absurd rfl hc, fun _ => mem_insertG_self _ _⟩

/-- Frame property of the local detector, mirrored onto `delete_locally`. -/
theorem checkRemote_deleteLocally_frame (env : MergerEnv) (fuel : Nat)
    (mn : MergedNode) (lp l : TNode) (st : MState) :
    ∀ c mn' st',
      checkForRemoteStructureChangeOfLocalNode env fuel mn lp l st =
        .ok (c, mn', st') →
      (c ≠ .deleted → st'.deleteLocally = st.deleteLocally) ∧
      (c = .deleted → l.guid ∈ st'.deleteLocally) := by
  intro c mn' st' h
  cases fuel with
  | zero =>
    rw [checkForRemoteStructureChangeOfLocalNode] at h
    simp at h
  | succ fuel =>
    rw [checkForRemoteStructureChangeOfLocalNode] at h
    simp only [] at h
    split at h
    · split at h
      · split at h
        · simp at h
        · rename_i mn1 st1 heq
          cases h
          have hle := relocateLocalOrphans_stLe heq
          exact ⟨fun hc => absurd rfl hc,
            fun _ => hle.2.1 l.guid (mem_insertG_self _ _)⟩
      · cases h
        exact ⟨fun hc => absurd rfl hc, fun _ => mem_insertG_self _ _⟩
    · split at h
      · split at h
        · split at h
          · split at h
            · split at h
              · simp at h
              · rename_i mn1 st1 heq
                cases h
                have hle := relocateLocalOrphans_stLe heq
                exact ⟨fun hc => absurd rfl hc,
                  fun _ => hle.2.1 l.guid (mem_insertG_self _ _)⟩
            · cases h
              exact ⟨fun hc => absurd rfl hc, fun _ => mem_insertG_self _ _⟩
          · split at h
            · simp at h
            · split at h
              · cases h
                exact ⟨fun _ => rfl, fun hc => absurd hc (by decide)⟩
              · cases h
                exact ⟨fun _ => rfl, fun hc => absurd hc (by decide)⟩
        · cases h
          exact ⟨fun _ => rfl, fun hc => absurd hc (by decide)⟩
      · split at h
        · cases h
          exact ⟨fun _ => rfl, fun hc => absurd hc (by decide)⟩
        · split at h
          · split at h
            · simp at h
            · rename_i mn1 st1 heq
              cases h
              have hle := relocateLocalOrphans_stLe heq
              exact ⟨fun hc => absurd rfl hc,
                fun _ => hle.2.1 l.guid (mem_insertG_self _ _)⟩
          · cases h
            exact ⟨fun hc => absurd rfl hc, fun _ => mem_insertG_self _ _⟩

/-- C10 counterexample: the claim's parenthetical — "a locally tombstoned
non-folder with `remote.needs_merge` true is never added to
`delete_remotely`" — fails for a non-syncable node: the detector's
non-syncable branch fires first, adds the guid and returns `Deleted`. -/
theorem c10_counterexample :
    c2Env.localTree.isDeleted c2BadNode.guid = true ∧
    c2BadNode.needsMerge = true ∧
    c2BadNode.isFolder = false ∧
    (match checkForLocalStructureChangeOfRemoteNode c2Env 10 (mnEmpty 1)
        (rootN 1 []) c2BadNode initState with
     | .ok (_, _, st') => decide (c2BadNode.guid ∈ st'.deleteRemotely)
     | .error _ => false) = true :=
  ⟨rfl, rfl, rfl, rfl⟩

/-- C10 (amended): each detector returns `Deleted` exactly when it put the
node's guid into its deletion set: on `Deleted` the guid is in the final
`delete_remotely` (resp. `delete_locally`), and on `Unchanged` or `Moved`
that set is returned unchanged.  In particular a locally tombstoned,
*syncable* non-folder with `remote.needs_merge` returns `Unchanged` and is
not added. -/
theorem c10_deleted_iff_inserted (env : MergerEnv) (fuel : Nat)
    (mn : MergedNode) (rp r lp l : TNode) (st : MState) :
    (∀ c mn' st',
      checkForLocalStructureChangeOfRemoteNode env fuel mn rp r st =
        .ok (c, mn', st') →
      (c ≠ .deleted → st'.deleteRemotely = st.deleteRemotely) ∧
      (c = .deleted → r.guid ∈ st'.deleteRemotely)) ∧
    (∀ c mn' st',
      checkForRemoteStructureChangeOfLocalNode env fuel mn lp l st =
        .ok (c, mn', st') →
      (c ≠ .deleted → st'.deleteLocally = st.deleteLocally) ∧
      (c = .deleted → l.guid ∈ st'.deleteLocally)) ∧
    (r.isSyncable = true → env.localTree.isDeleted r.guid = true →
      r.needsMerge = true → r.isFolder = false →
      checkForLocalStructureChangeOfRemoteNode env (fuel + 1) mn rp r st =
        .ok (.unchanged, mn, bumpRemoteRevives st)) := by
  refine ⟨checkLocal_deleteRemotely_frame env fuel mn rp r st,
    checkRemote_deleteLocally_frame env fuel mn lp l st, ?_⟩
  intro hs hd hnm hf
  rw [checkLocal_tombstone_eq env fuel mn rp r st hs hd, hnm, hf]
  rfl

/-- Witness for C10 (amended) at a concrete non-`Deleted` and a concrete
`Deleted` call. -/
theorem c10_deleted_iff_inserted_witness :
    ((StructureChange.unchanged ≠ .deleted →
      (bumpRemoteRevives initState).deleteRemotely =
        initState.deleteRemotely) ∧
     (StructureChange.unchanged = .deleted →
      (bookmarkN 5 true).guid ∈ (bumpRemoteRevives initState).deleteRemotely))
    ∧ checkForLocalStructureChangeOfRemoteNode c2Env 10 (mnEmpty 1)
        (rootN 1 []) (bookmarkN 5 true) initState =
      .ok (.unchanged, mnEmpty 1, bumpRemoteRevives initState) := by
  have h := c10_deleted_iff_inserted c2Env 9 (mnEmpty 1) (rootN 1 [])
    (bookmarkN 5 true) (rootN 1 []) (bookmarkN 5 true) initState
  have h3 := h.2.2 rfl rfl rfl rfl
  exact ⟨h.1 .unchanged (mnEmpty 1) (bumpRemoteRevives initState) h3, h3⟩

/-! ## C8 — the asymmetric handling of a child deleted on the other side -/

/-- After the detector reports `Deleted` for a remote child,
`merge_remote_child_into_merged_node` returns the detector's output with
exactly one `with_new_structure` applied to the merged parent, appending
nothing further. -/
theorem mergeRemoteChild_deleted (env : MergerEnv) (fuel : Nat)
    (mn : MergedNode) (lp : Option TNode) (rp rc : TNode) (st : MState)
    (mn1 : MergedNode) (st1 : MState)
    (hmem : rc.guid ∉ st.mergedGuids)
    (hchk : checkForLocalStructureChangeOfRemoteNode env fuel mn rp rc st =
      .ok (.deleted, mn1, st1)) :
    mergeRemoteChildIntoMergedNode env (fuel + 1) mn lp rp rc st =
      .ok (mn1.flagNewStructure, st1) := by
  rw [mergeRemoteChildIntoMergedNode]
  rw [if_neg hmem, hchk]
  rfl

/-- After the detector reports `Deleted` for a local child,
`merge_local_child_into_merged_node` returns the detector's output without
any further change at all. -/
theorem mergeLocalChild_deleted (env : MergerEnv) (fuel : Nat)
    (mn : MergedNode) (lp : TNode) (rp : Option TNode) (lc : TNode)
    (st : MState) (mn1 : MergedNode) (st1 : MState)
    (hmem : lc.guid ∉ st.mergedGuids)
    (hchk : checkForRemoteStructureChangeOfLocalNode env fuel mn lp lc st =
      .ok (.deleted, mn1, st1)) :
    mergeLocalChildIntoMergedNode env (fuel + 1) mn lp rp lc st =
      .ok (mn1, st1) := by
  rw [mergeLocalChildIntoMergedNode]
  rw [if_neg hmem, hchk]
  rfl

/-- C8 counterexample: a local folder (guid 6) deleted remotely, holding a
local-only bookmark (guid 8).  `merge_local_child_into_merged_node` detects
`Deleted`, but the orphan relocation inside the detector appends the
relocated bookmark to the merged parent and marks it `new_structure` — the
call does not leave the merged parent untouched as the claim states. -/
def c8LocalRoot : TNode := rootN 1 [folderN 6 false [bookmarkN 8 true]]

def c8Env : MergerEnv := envOf ⟨c8LocalRoot, []⟩ ⟨rootN 1 [], [6]⟩

theorem c8_counterexample :
    (match mergeLocalChildIntoMergedNode c8Env 10 (mnEmpty 1) c8LocalRoot
        (some (rootN 1 [])) (folderN 6 false [bookmarkN 8 true])
        initState with
     | .ok (mn', _) =>
       decide (mn'.mergedChildren.length = 1) &&
         mn'.state.newStructure
     | .error _ => false) = true ∧
    (mnEmpty 1).mergedChildren.length = 0 ∧
    (mnEmpty 1).state.newStructure = false :=
  ⟨rfl, rfl, rfl⟩

/-- C8 (amended): when the structure-change detector reports the child
deleted on the other side, `merge_remote_child_into_merged_node` returns the
detector's output with the merged parent marked `new_structure` and appends
nothing further, while `merge_local_child_into_merged_node` returns the
detector's output entirely unchanged; any appended orphans or parent marks
on the detector's output itself come from orphan relocation inside the
detector, not from the merge-child calls. -/
theorem c8_deleted_child_asymmetry (env : MergerEnv) (fuel : Nat)
    (mn : MergedNode) (lpo : Option TNode) (rp rc : TNode)
    (lp : TNode) (rpo : Option TNode) (lc : TNode) (st : MState) :
    (∀ mn1 st1, rc.guid ∉ st.mergedGuids →
      checkForLocalStructureChangeOfRemoteNode env fuel mn rp rc st =
        .ok (.deleted, mn1, st1) →
      mergeRemoteChildIntoMergedNode env (fuel + 1) mn lpo rp rc st =
        .ok (mn1.flagNewStructure, st1)) ∧
    (∀ mn1 st1, lc.guid ∉ st.mergedGuids →
      checkForRemoteStructureChangeOfLocalNode env fuel mn lp lc st =
        .ok (.deleted, mn1, st1) →
      mergeLocalChildIntoMergedNode env (fuel + 1) mn lp rpo lc st =
        .ok (mn1, st1)) :=
  ⟨fun mn1 st1 hmem hchk =>
    mergeRemoteChild_deleted env fuel mn lpo rp rc st mn1 st1 hmem hchk,
   fun mn1 st1 hmem hchk =>
    mergeLocalChild_deleted env fuel mn lp rpo lc st mn1 st1 hmem hchk⟩

/-- Witness for C8 (amended): a local bookmark (guid 7) tombstoned remotely
and, mirrored, a remote bookmark (guid 9) tombstoned locally. -/
def c8wEnv : MergerEnv := envOf ⟨rootN 1 [bookmarkN 7 false], []⟩
  ⟨rootN 1 [], [7]⟩

def c8wEnv2 : MergerEnv := envOf ⟨rootN 1 [], [9]⟩
  ⟨rootN 1 [bookmarkN 9 false], []⟩

theorem c8_deleted_child_asymmetry_witness :
    mergeLocalChildIntoMergedNode c8wEnv 10 (mnEmpty 1)
      (rootN 1 [bookmarkN 7 false]) (some (rootN 1 [])) (bookmarkN 7 false)
      initState =
      .ok (mnEmpty 1, { initState with deleteLocally := [7] }) ∧
    mergeRemoteChildIntoMergedNode c8wEnv2 10 (mnEmpty 1)
      (some (rootN 1 [])) (rootN 1 [bookmarkN 9 false]) (bookmarkN 9 false)
      initState =
      .ok ((mnEmpty 1).flagNewStructure,
        { initState with deleteRemotely := [9] }) := by
  constructor
  · exact (c8_deleted_child_asymmetry c8wEnv 9 (mnEmpty 1)
      (some (rootN 1 [])) (rootN 1 [bookmarkN 7 false]) (bookmarkN 7 false)
      (rootN 1 [bookmarkN 7 false]) (some (rootN 1 []))
      (bookmarkN 7 false) initState).2 (mnEmpty 1)
      { initState with deleteLocally := [7] } (by decide) rfl
  · exact (c8_deleted_child_asymmetry c8wEnv2 9 (mnEmpty 1)
      (some (rootN 1 [])) (rootN 1 [bookmarkN 9 false]) (bookmarkN 9 false)
      (rootN 1 [bookmarkN 9 false]) (some (rootN 1 []))
      (bookmarkN 9 false) initState).1 (mnEmpty 1)
      { initState with deleteRemotely := [9] } (by decide) rfl

/-! ## C3 — the two detectors as mirrors of each other -/

/-- The claim's counter renaming: `remote_revives` ↔ `local_revives`,
`local_deletes` ↔ `remote_deletes`, `dupes` fixed. -/
def swapCounts (c : StructureCounts) : StructureCounts :=
  ⟨c.localRevives, c.remoteDeletes, c.remoteRevives, c.localDeletes, c.dupes⟩

/-- The claim's side swap on merger state: the two deletion sets exchange
roles and the counters are renamed; `merged_guids`, the dedup cache and the
ghost pairs stay put. -/
def swapState (st : MState) : MState :=
  { mergedGuids := st.mergedGuids,
    deleteLocally := st.deleteRemotely,
    deleteRemotely := st.deleteLocally,
    structureCounts := swapCounts st.structureCounts,
    matchingDupes := st.matchingDupes,
    retrievedPairs := st.retrievedPairs }

/-- The claim's side swap on the merger's context: the two trees and the two
content indices exchange roles. -/
def swapEnv (env : MergerEnv) : MergerEnv :=
  { localTree := env.remoteTree,
    newLocalContents := env.newRemoteContents,
    remoteTree := env.localTree,
    newRemoteContents := env.newLocalContents,
    generateNewGuid := env.generateNewGuid,
    guidValid := env.guidValid }

/-- C3 counterexample input: guid 7 is a syncable local folder holding a
local-only bookmark (guid 8), while the remote side has guid 7 as a
non-syncable non-folder. -/
def c3Subject : TNode := .mk 7 .folder 0 false false true false false
  [bookmarkN 8 false]

def c3Counterpart : TNode := .mk 7 .bookmark 0 false false false false false []

def c3Env : MergerEnv :=
  envOf ⟨rootN 1 [c3Subject], []⟩ ⟨rootN 1 [c3Counterpart], []⟩

/-- C3 counterexample: on this input
`check_for_remote_structure_change_of_local_node` deletes guid 7 without
relocating anything, but the same call with the local and remote sides
swapped relocates the orphan (guid 8) into the merged parent and records it
in `merged_guids` — the two functions do not compute the same orphan
relocations under the swap, because both test `remote_node.is_folder()`
before relocating: the subject for `check_local`, the counterpart for
`check_remote`. -/
theorem c3_counterexample :
    (match checkForRemoteStructureChangeOfLocalNode c3Env 10 (mnEmpty 1)
        (rootN 1 []) c3Subject initState with
     | .ok (c, mn', st') =>
       (decide (c = .deleted), mn'.mergedChildren.length, st'.mergedGuids,
        st'.deleteLocally, st'.deleteRemotely)
     | .error _ => (false, 0, [], [], [])) =
      (true, 0, [], [7], []) ∧
    (match checkForLocalStructureChangeOfRemoteNode (swapEnv c3Env) 10
        (mnEmpty 1) (rootN 1 []) c3Subject (swapState initState) with
     | .ok (c, mn', st') =>
       (decide (c = .deleted), mn'.mergedChildren.length, st'.mergedGuids,
        st'.deleteLocally, st'.deleteRemotely)
     | .error _ => (false, 0, [], [], [])) =
      (true, 1, [8], [], [7]) ∧
    (0 : Nat) ≠ 1 :=
  ⟨rfl, rfl, by decide⟩

/-- C3 (amended): when no orphan relocation can trigger — the subject node
is not a folder, and its counterpart on the other tree (if any) is not a
folder — the two structure-change detectors compute exactly the same result
under the side swap: same `StructureChange`, same merged node, and the swap
of the final state (deletion sets exchanged, revive/delete counters
renamed).  When relocation does trigger, the two differ as the
counterexample shows: each tests `remote_node.is_folder()`, which is the
subject node for `check_local` but the counterpart for `check_remote`. -/
theorem c3_detectors_mirror (env : MergerEnv) (fuel : Nat) (mn : MergedNode)
    (lp l : TNode) (st : MState)
    (hlf : l.isFolder = false)
    (hcf : ∀ rn, findNode env.remoteTree.root l.guid = some rn →
      rn.isFolder = false) :
    checkForRemoteStructureChangeOfLocalNode env (fuel + 1) mn lp l st =
      (checkForLocalStructureChangeOfRemoteNode (swapEnv env) (fuel + 1) mn
        lp l (swapState st)).map
        (fun p => (p.1, p.2.1, swapState p.2.2)) := by
  rw [checkForRemoteStructureChangeOfLocalNode,
    checkForLocalStructureChangeOfRemoteNode]
  simp only [swapEnv]
  cases hsy : l.isSyncable with
  | false =>
    simp only [Bool.not_false, if_true, hlf, Bool.false_eq_true, if_false]
    rfl
  | true =>
    simp only [Bool.not_true, Bool.false_eq_true, if_false]
    cases hdel : env.remoteTree.isDeleted l.guid with
    | false =>
      simp only [Bool.not_false, if_true]
      cases hfn : findNode env.remoteTree.root l.guid with
      | some rn =>
        have hrnf := hcf rn hfn
        cases hrsy : rn.isSyncable with
        | false =>
          simp only [hrsy, Bool.not_false, if_true, hrnf, hlf,
            Bool.false_eq_true, if_false]
          rfl
        | true =>
          simp only [hrsy, Bool.not_true, Bool.false_eq_true, if_false]
          cases hfp : findParent env.remoteTree.root rn.guid with
          | none => rfl
          | some pn =>
            by_cases hpg : pn.guid ≠ lp.guid
            · simp only [if_pos hpg]
              rfl
            · simp only [if_neg hpg]
              rfl
      | none => rfl
    | true =>
      simp only [hdel, Bool.not_true, Bool.false_eq_true, if_false]
      cases hnm : l.needsMerge with
      | false =>
        simp only [Bool.false_and, Bool.false_eq_true, if_false, hlf]
        rfl
      | true =>
        simp only [Bool.true_and, hlf, Bool.not_false, if_true]
        rfl

/-- Witness for C3 (amended) at a concrete input: a syncable local bookmark
(guid 4) with a remote counterpart bookmark under the same parent. -/
def c3wTree : Tree := ⟨rootN 1 [bookmarkN 4 false], []⟩

theorem c3_detectors_mirror_witness :
    checkForRemoteStructureChangeOfLocalNode (envOf c3wTree c3wTree) 10
      (mnEmpty 1) (rootN 1 [bookmarkN 4 false]) (bookmarkN 4 false)
      initState =
      (checkForLocalStructureChangeOfRemoteNode (swapEnv (envOf c3wTree
        c3wTree)) 10 (mnEmpty 1) (rootN 1 [bookmarkN 4 false])
        (bookmarkN 4 false) (swapState initState)).map
        (fun p => (p.1, p.2.1, swapState p.2.2)) :=
  c3_detectors_mirror (envOf c3wTree c3wTree) 9 (mnEmpty 1)
    (rootN 1 [bookmarkN 4 false]) (bookmarkN 4 false) initState rfl
    (fun rn hrn => by
      have h2 : some (bookmarkN 4 false) = some rn := hrn
      cases h2
      rfl)

/-! ## C1 — completeness of the merge over both live sets -/

/-- C1 failing input, local side: `R { Q { X } }` — the bookmark X (guid 4)
lives under folder Q (guid 3). -/
def c1LocalTree : Tree := ⟨rootN 1 [folderN 3 false [bookmarkN 4 false]], []⟩

/-- C1 failing input, remote side: `R { Q, P { X } }` — X was moved into the
changed, *non-syncable* remote folder P (guid 5). -/
def c1PFolder : TNode := .mk 5 .folder 0 true false false false false
  [bookmarkN 4 false]

def c1RemoteTree : Tree := ⟨rootN 1 [folderN 3 false [], c1PFolder], []⟩

def c1Env : MergerEnv := envOf c1LocalTree c1RemoteTree

/-- C1: on the failing input, `merge()` returns successfully, yet guid 4 —
live in *both* input trees — is neither a merged-tree identifier nor in
either deletion set: the local walk skips it ("we'll merge the local child
later, when we walk its new remote parent", says the source), but that
remote parent is deleted as non-syncable and its orphan check reports the
child `Moved`, so no walk ever reaches it.  `subsumes` is false on both
input trees, refuting the claim. -/
theorem c1_merge_drops_live_item :
    (4 : Guid) ∈ c1Env.localTree.guids ∧
    (4 : Guid) ∈ c1Env.remoteTree.guids ∧
    (match merge c1Env 50 with
     | .ok (_, st) =>
       (subsumes st c1Env.localTree, subsumes st c1Env.remoteTree,
        mentions st 4, decide ((4 : Guid) ∈ st.mergedGuids),
        decide ((4 : Guid) ∈ st.deleteLocally),
        decide ((4 : Guid) ∈ st.deleteRemotely))
     | .error _ => (true, true, true, true, true, true)) =
      (false, false, false, false, false, false) :=
  ⟨by decide, by decide, rfl⟩

/-! ## C7 — `dupes` counts distinct retrieved pairings

The ghost field `retrievedPairs` records one entry at exactly the program
point where the source increments `structure_counts.dupes`.  The invariant
below says the recorded pairings are pairwise distinct, every recorded guid
has already been absorbed into `merged_guids`, and the counter equals the
number of recordings.  `extra` is the slack needed while a freshly retrieved
pairing is being two-way-merged (its two guids enter `merged_guids` first
thing inside `two_way_merge`). -/

def pairsInvSlack (st : MState) (extra : List Guid) : Prop :=
  st.retrievedPairs.Nodup ∧
  (∀ p ∈ st.retrievedPairs,
    (p.1 ∈ st.mergedGuids ∨ p.1 ∈ extra) ∧
    (p.2 ∈ st.mergedGuids ∨ p.2 ∈ extra)) ∧
  st.structureCounts.dupes = st.retrievedPairs.length

def pairsInv (st : MState) : Prop := pairsInvSlack st []

theorem pairsInv_slack {st : MState} (extra : List Guid) (h : pairsInv st) :
    pairsInvSlack st extra :=
  ⟨h.1,
   fun p hp => ⟨Or.inl ((h.2.1 p hp).1.resolve_right (List.not_mem_nil _)),
     Or.inl ((h.2.1 p hp).2.resolve_right (List.not_mem_nil _))⟩,
   h.2.2⟩

/-- Transfer `pairsInv` across a state whose pairing-relevant fields agree. -/
theorem pairsInv_of_fields_eq {st st' : MState} (h : pairsInv st)
    (hp : st'.retrievedPairs = st.retrievedPairs)
    (hm : ∀ g, g ∈ st.mergedGuids → g ∈ st'.mergedGuids)
    (hd : st'.structureCounts.dupes = st.structureCounts.dupes) :
    pairsInv st' :=
  ⟨hp ▸ h.1,
   fun p hpp => by
     rw [hp] at hpp
     exact ⟨Or.inl (hm p.1 ((h.2.1 p hpp).1.resolve_right
       (List.not_mem_nil _))),
       Or.inl (hm p.2 ((h.2.1 p hpp).2.resolve_right (List.not_mem_nil _)))⟩,
   by rw [hp, hd, h.2.2]⟩

theorem pairsInv_insMergedGuid (g : Guid) {st : MState} (h : pairsInv st) :
    pairsInv (insMergedGuid g st) :=
  pairsInv_of_fields_eq h rfl (fun _ hm => mem_insertG_of_mem hm) rfl

theorem pairsInv_insDeleteLocally (g : Guid) {st : MState}
    (h : pairsInv st) : pairsInv (insDeleteLocally g st) :=
  pairsInv_of_fields_eq h rfl (fun _ hm => hm) rfl

theorem pairsInv_insDeleteRemotely (g : Guid) {st : MState}
    (h : pairsInv st) : pairsInv (insDeleteRemotely g st) :=
  pairsInv_of_fields_eq h rfl (fun _ hm => hm) rfl

theorem pairsInv_bumpRemoteRevives {st : MState} (h : pairsInv st) :
    pairsInv (bumpRemoteRevives st) :=
  pairsInv_of_fields_eq h rfl (fun _ hm => hm) rfl

theorem pairsInv_bumpLocalDeletes {st : MState} (h : pairsInv st) :
    pairsInv (bumpLocalDeletes st) :=
  pairsInv_of_fields_eq h rfl (fun _ hm => hm) rfl

theorem pairsInv_bumpLocalRevives {st : MState} (h : pairsInv st) :
    pairsInv (bumpLocalRevives st) :=
  pairsInv_of_fields_eq h rfl (fun _ hm => hm) rfl

theorem pairsInv_bumpRemoteDeletes {st : MState} (h : pairsInv st) :
    pairsInv (bumpRemoteDeletes st) :=
  pairsInv_of_fields_eq h rfl (fun _ hm => hm) rfl

/-- `cacheEnsure` only changes the cache field. -/
theorem cacheEnsure_fields (env : MergerEnv) (st : MState) (lp rp : TNode) :
    (cacheEnsure env st lp rp).2.mergedGuids = st.mergedGuids ∧
    (cacheEnsure env st lp rp).2.retrievedPairs = st.retrievedPairs ∧
    (cacheEnsure env st lp rp).2.structureCounts = st.structureCounts := by
  rw [cacheEnsure]
  split
  · exact ⟨rfl, rfl, rfl⟩
  · exact ⟨rfl, rfl, rfl⟩

/-- Field accounting of `find_remote_node_matching_local_node`: a hit adds
one to `dupes` and records the pairing; a miss changes neither. -/
theorem findRemote_fields (env : MergerEnv) (mn : MergedNode) (lp : TNode)
    (rpo : Option TNode) (lc : TNode) (st : MState) (res : Option TNode)
    (st' : MState)
    (h : findRemoteNodeMatchingLocalNode env mn lp rpo lc st = (res, st')) :
    (∀ rn, res = some rn →
      st'.mergedGuids = st.mergedGuids ∧
      st'.retrievedPairs = st.retrievedPairs ++ [(lc.guid, rn.guid)] ∧
      st'.structureCounts.dupes = st.structureCounts.dupes + 1) ∧
    (res = none →
      st'.mergedGuids = st.mergedGuids ∧
      st'.retrievedPairs = st.retrievedPairs ∧
      st'.structureCounts.dupes = st.structureCounts.dupes) := by
  rw [findRemoteNodeMatchingLocalNode.eq_def] at h
  cases rpo with
  | none =>
    simp only at h
    cases h
    exact ⟨fun rn hrn => (by cases hrn), fun _ => ⟨rfl, rfl, rfl⟩⟩
  | some rp =>
    simp only at h
    rcases hce : cacheEnsure env st lp rp with ⟨md, st1⟩
    have hf := cacheEnsure_fields env st lp rp
    rw [hce] at h hf
    cases haf : assocFind md.localToRemote lc.guid with
    | some rn =>
      rw [haf] at h
      cases h
      refine ⟨fun rn' hrn' => ?_, fun hnone => by cases hnone⟩
      cases hrn'
      exact ⟨hf.1, by rw [hf.2.1], by rw [hf.2.2]⟩
    | none =>
      rw [haf] at h
      cases h
      exact ⟨fun rn hrn => (by cases hrn),
        fun _ => ⟨hf.1, hf.2.1, by rw [hf.2.2]⟩⟩

/-- Field accounting of `find_local_node_matching_remote_node`. -/
theorem findLocal_fields (env : MergerEnv) (mn : MergedNode)
    (lpo : Option TNode) (rp : TNode) (rc : TNode) (st : MState)
    (res : Option TNode) (st' : MState)
    (h : findLocalNodeMatchingRemoteNode env mn lpo rp rc st = (res, st')) :
    (∀ ln, res = some ln →
      st'.mergedGuids = st.mergedGuids ∧
      st'.retrievedPairs = st.retrievedPairs ++ [(ln.guid, rc.guid)] ∧
      st'.structureCounts.dupes = st.structureCounts.dupes + 1) ∧
    (res = none →
      st'.mergedGuids = st.mergedGuids ∧
      st'.retrievedPairs = st.retrievedPairs ∧
      st'.structureCounts.dupes = st.structureCounts.dupes) := by
  rw [findLocalNodeMatchingRemoteNode.eq_def] at h
  cases lpo with
  | none =>
    simp only at h
    cases h
    exact ⟨fun ln hln => (by cases hln), fun _ => ⟨rfl, rfl, rfl⟩⟩
  | some lp =>
    simp only at h
    rcases hce : cacheEnsure env st lp rp with ⟨md, st1⟩
    have hf := cacheEnsure_fields env st lp rp
    rw [hce] at h hf
    cases haf : assocFind md.remoteToLocal rc.guid with
    | some ln =>
      rw [haf] at h
      cases h
      refine ⟨fun ln' hln' => ?_, fun hnone => by cases hnone⟩
      cases hln'
      exact ⟨hf.1, by rw [hf.2.1], by rw [hf.2.2]⟩
    | none =>
      rw [haf] at h
      cases h
      exact ⟨fun ln hln => (by cases hln),
        fun _ => ⟨hf.1, hf.2.1, by rw [hf.2.2]⟩⟩

/-- A fresh pairing whose first guid is not yet merged cannot repeat an
already-recorded pairing, so the invariant survives a local-side retrieval
with the pairing's guids as slack. -/
theorem pairsInvSlack_retrieval_fst {st st' : MState} {a b : Guid}
    (hguard : a ∉ st.mergedGuids)
    (hm : st'.mergedGuids = st.mergedGuids)
    (hp : st'.retrievedPairs = st.retrievedPairs ++ [(a, b)])
    (hd : st'.structureCounts.dupes = st.structureCounts.dupes + 1)
    (hinv : pairsInv st) : pairsInvSlack st' [a, b] := by
  refine ⟨?_, ?_, ?_⟩
  · rw [hp, List.nodup_append]
    refine ⟨hinv.1, List.nodup_singleton _, ?_⟩
    intro p hpmem hpnew
    rcases List.mem_singleton.1 hpnew with rfl
    exact hguard ((hinv.2.1 _ hpmem).1.resolve_right (List.not_mem_nil _))
  · intro p hpmem
    rw [hp] at hpmem
    rcases List.mem_append.1 hpmem with hold | hnew
    · rw [hm]
      exact ⟨Or.inl ((hinv.2.1 p hold).1.resolve_right (List.not_mem_nil _)),
        Or.inl ((hinv.2.1 p hold).2.resolve_right (List.not_mem_nil _))⟩
    · rcases List.mem_singleton.1 hnew with rfl
      exact ⟨Or.inr (by simp), Or.inr (by simp)⟩
  · rw [hp, hd, hinv.2.2, List.length_append]
    rfl

/-- The mirrored argument through the pairing's second guid. -/
theorem pairsInvSlack_retrieval_snd {st st' : MState} {a b : Guid}
    (hguard : b ∉ st.mergedGuids)
    (hm : st'.mergedGuids = st.mergedGuids)
    (hp : st'.retrievedPairs = st.retrievedPairs ++ [(a, b)])
    (hd : st'.structureCounts.dupes = st.structureCounts.dupes + 1)
    (hinv : pairsInv st) : pairsInvSlack st' [a, b] := by
  refine ⟨?_, ?_, ?_⟩
  · rw [hp, List.nodup_append]
    refine ⟨hinv.1, List.nodup_singleton _, ?_⟩
    intro p hpmem hpnew
    rcases List.mem_singleton.1 hpnew with rfl
    exact hguard ((hinv.2.1 _ hpmem).2.resolve_right (List.not_mem_nil _))
  · intro p hpmem
    rw [hp] at hpmem
    rcases List.mem_append.1 hpmem with hold | hnew
    · rw [hm]
      exact ⟨Or.inl ((hinv.2.1 p hold).1.resolve_right (List.not_mem_nil _)),
        Or.inl ((hinv.2.1 p hold).2.resolve_right (List.not_mem_nil _))⟩
    · rcases List.mem_singleton.1 hnew with rfl
      exact ⟨Or.inr (by simp), Or.inr (by simp)⟩
  · rw [hp, hd, hinv.2.2, List.length_append]
    rfl

/-- Entering `two_way_merge` puts both guids into `merged_guids`, turning
slack on exactly those guids back into the plain invariant. -/
theorem pairsInv_absorb_slack {st : MState} {a b : Guid}
    (h : pairsInvSlack st [a, b]) :
    pairsInv (if a ≠ b then insMergedGuid a (insMergedGuid b st)
      else insMergedGuid b st) := by
  have key : ∀ st2 : MState,
      st2.retrievedPairs = st.retrievedPairs →
      st2.structureCounts.dupes = st.structureCounts.dupes →
      (∀ g, g ∈ st.mergedGuids → g ∈ st2.mergedGuids) →
      a ∈ st2.mergedGuids → b ∈ st2.mergedGuids → pairsInv st2 := by
    intro st2 hp hd hm ha hb
    refine ⟨hp ▸ h.1, ?_, by rw [hp, hd, h.2.2]⟩
    intro p hpmem
    rw [hp] at hpmem
    have h1 := (h.2.1 p hpmem).1
    have h2 := (h.2.1 p hpmem).2
    constructor
    · rcases h1 with hmem | hext
      · exact Or.inl (hm _ hmem)
      · rcases List.mem_cons.1 hext with rfl | hext2
        · exact Or.inl ha
        · rcases List.mem_singleton.1 hext2 with rfl
          exact Or.inl hb
    · rcases h2 with hmem | hext
      · exact Or.inl (hm _ hmem)
      · rcases List.mem_cons.1 hext with rfl | hext2
        · exact Or.inl ha
        · rcases List.mem_singleton.1 hext2 with rfl
          exact Or.inl hb
  split
  · exact key _ rfl rfl
      (fun g hg => mem_insertG_of_mem (mem_insertG_of_mem hg))
      (mem_insertG_self _ _) (mem_insertG_of_mem (mem_insertG_self _ _))
  · rename_i hab
    have hab' : a = b := by
      by_contra hne
      exact hab hne
    subst hab'
    exact key _ rfl rfl (fun g hg => mem_insertG_of_mem hg)
      (mem_insertG_self _ _) (mem_insertG_self _ _)

/-- A non-`Deleted` detector outcome returns the merged node untouched and
the state either unchanged or with only the revive counter bumped; in
particular `merged_guids` is unchanged. -/
theorem checkLocal_nondeleted_state (env : MergerEnv) (fuel : Nat)
    (mn : MergedNode) (rp r : TNode) (st : MState) :
    ∀ c mn' st',
      checkForLocalStructureChangeOfRemoteNode env fuel mn rp r st =
        .ok (c, mn', st') → c ≠ .deleted →
      mn' = mn ∧ (st' = st ∨ st' = bumpRemoteRevives st) := by
  intro c mn' st' h hc
  cases fuel with
  | zero =>
    rw [checkForLocalStructureChangeOfRemoteNode] at h
    simp at h
  | succ fuel =>
    rw [checkForLocalStructureChangeOfRemoteNode] at h
    simp only [] at h
    split at h
    · split at h
      · split at h
        · simp at h
        · cases h
          exact absurd rfl hc
      · cases h
        exact absurd rfl hc
    · split at h
      · split at h
        · split at h
          · split at h
            · split at h
              · simp at h
              · cases h
                exact absurd rfl hc
            · cases h
              exact absurd rfl hc
          · split at h
            · simp at h
            · split at h
              · cases h
                exact ⟨rfl, Or.inl rfl⟩
              · cases h
                exact ⟨rfl, Or.inl rfl⟩
        · cases h
          exact ⟨rfl, Or.inl rfl⟩
      · split at h
        · cases h
          exact ⟨rfl, Or.inr rfl⟩
        · split at h
          · split at h
            · simp at h
            · cases h
              exact absurd rfl hc
          · cases h
            exact absurd rfl hc

/-- Mirror of `checkLocal_nondeleted_state` for the local detector. -/
theorem checkRemote_nondeleted_state (env : MergerEnv) (fuel : Nat)
    (mn : MergedNode) (lp l : TNode) (st : MState) :
    ∀ c mn' st',
      checkForRemoteStructureChangeOfLocalNode env fuel mn lp l st =
        .ok (c, mn', st') → c ≠ .deleted →
      mn' = mn ∧ (st' = st ∨ st' = bumpLocalRevives st) := by
  intro c mn' st' h hc
  cases fuel with
  | zero =>
    rw [checkForRemoteStructureChangeOfLocalNode] at h
    simp at h
  | succ fuel =>
    rw [checkForRemoteStructureChangeOfLocalNode] at h
    simp only [] at h
    split at h
    · split at h
      · split at h
        · simp at h
        · cases h
          exact absurd rfl hc
      · cases h
        exact absurd rfl hc
    · split at h
      · split at h
        · split at h
          · split at h
            · split at h
              · simp at h
              · cases h
                exact absurd rfl hc
            · cases h
              exact absurd rfl hc
          · split at h
            · simp at h
            · split at h
              · cases h
                exact ⟨rfl, Or.inl rfl⟩
              · cases h
                exact ⟨rfl, Or.inl rfl⟩
        · cases h
          exact ⟨rfl, Or.inl rfl⟩
      · split at h
        · cases h
          exact ⟨rfl, Or.inr rfl⟩
        · split at h
          · split at h
            · simp at h
            · cases h
              exact absurd rfl hc
          · cases h
            exact absurd rfl hc

/-- Preservation of the dedup-counting invariant by every function of the
merge walk.  `two_way_merge` takes the invariant with its two guids as
slack — they enter `merged_guids` first thing in its body — and all other
functions preserve the plain invariant. -/
theorem pairsInv_walk (env : MergerEnv) : ∀ fuel : Nat,
    (∀ l r st mn st', twoWayMerge env fuel l r st = .ok (mn, st') →
      pairsInvSlack st [l.guid, r.guid] → pairsInv st') ∧
    (∀ mn lp rp cs st mn' st',
      walkLocalChildren env fuel mn lp rp cs st = .ok (mn', st') →
      pairsInv st → pairsInv st') ∧
    (∀ mn lp rp cs st mn' st',
      walkRemoteChildren env fuel mn lp rp cs st = .ok (mn', st') →
      pairsInv st → pairsInv st') ∧
    (∀ l st mn st', mergeLocalNode env fuel l st = .ok (mn, st') →
      pairsInv st → pairsInv st') ∧
    (∀ r st mn st', mergeRemoteNode env fuel r st = .ok (mn, st') →
      pairsInv st → pairsInv st') ∧
    (∀ mn lp rp rc st mn' st',
      mergeRemoteChildIntoMergedNode env fuel mn lp rp rc st =
        .ok (mn', st') → pairsInv st → pairsInv st') ∧
    (∀ mn lp rp lc st mn' st',
      mergeLocalChildIntoMergedNode env fuel mn lp rp lc st =
        .ok (mn', st') → pairsInv st → pairsInv st') ∧
    (∀ mn rp r st c mn' st',
      checkForLocalStructureChangeOfRemoteNode env fuel mn rp r st =
        .ok (c, mn', st') → pairsInv st → pairsInv st') ∧
    (∀ mn lp l st c mn' st',
      checkForRemoteStructureChangeOfLocalNode env fuel mn lp l st =
        .ok (c, mn', st') → pairsInv st → pairsInv st') ∧
    (∀ mn r cs st mn' st',
      relocateRemoteOrphansToMergedNode env fuel mn r cs st = .ok (mn', st') →
      pairsInv st → pairsInv st') ∧
    (∀ mn l cs st mn' st',
      relocateLocalOrphansToMergedNode env fuel mn l cs st = .ok (mn', st') →
      pairsInv st → pairsInv st') := by
  intro fuel
  induction fuel with
  | zero =>
    refine ⟨?_, ?_, ?_, ?_, ?_, ?_, ?_, ?_, ?_, ?_, ?_⟩ <;>
      (intros; rename_i h hinv;
       simp [twoWayMerge, walkLocalChildren, walkRemoteChildren,
         mergeLocalNode, mergeRemoteNode, mergeRemoteChildIntoMergedNode,
         mergeLocalChildIntoMergedNode,
         checkForLocalStructureChangeOfRemoteNode,
         checkForRemoteStructureChangeOfLocalNode,
         relocateRemoteOrphansToMergedNode,
         relocateLocalOrphansToMergedNode] at h)
  | succ fuel ih =>
    obtain ⟨ihTW, ihWL, ihWR, ihMLN, ihMRN, ihMRC, ihMLC, ihCL, ihCR, ihRR,
      ihRL⟩ := ih
    refine ⟨?_, ?_, ?_, ?_, ?_, ?_, ?_, ?_, ?_, ?_, ?_⟩
    · -- twoWayMerge
      intro l r st mn st' h hinv
      rw [twoWayMerge] at h
      split at h
      · by_cases hne : l.guid ≠ r.guid
        · simp only [if_pos hne] at h
          have hinv2 : pairsInv (insMergedGuid l.guid
              (insMergedGuid r.guid st)) := by
            have hib := pairsInv_absorb_slack hinv
            rwa [if_pos hne] at hib
          split at h
          · split at h
            · simp at h
            · rename_i mn1 st1 heq
              exact ihWR _ _ _ _ _ _ _ h (ihWL _ _ _ _ _ _ _ heq hinv2)
          · split at h
            · simp at h
            · rename_i mn1 st1 heq
              exact ihWL _ _ _ _ _ _ _ h (ihWR _ _ _ _ _ _ _ heq hinv2)
        · simp only [if_neg hne] at h
          have hinv2 : pairsInv (insMergedGuid r.guid st) := by
            have hib := pairsInv_absorb_slack hinv
            rwa [if_neg hne] at hib
          split at h
          · split at h
            · simp at h
            · rename_i mn1 st1 heq
              exact ihWR _ _ _ _ _ _ _ h (ihWL _ _ _ _ _ _ _ heq hinv2)
          · split at h
            · simp at h
            · rename_i mn1 st1 heq
              exact ihWL _ _ _ _ _ _ _ h (ihWR _ _ _ _ _ _ _ heq hinv2)
      · simp at h
    · -- walkLocalChildren
      intro mn lp rp cs st mn' st' h hinv
      cases cs with
      | nil =>
        rw [walkLocalChildren] at h
        cases h
        exact hinv
      | cons c rest =>
        rw [walkLocalChildren] at h
        split at h
        · simp at h
        · rename_i mn1 st1 heq
          exact ihWL _ _ _ _ _ _ _ h (ihMLC _ _ _ _ _ _ _ heq hinv)
    · -- walkRemoteChildren
      intro mn lp rp cs st mn' st' h hinv
      cases cs with
      | nil =>
        rw [walkRemoteChildren] at h
        cases h
        exact hinv
      | cons c rest =>
        rw [walkRemoteChildren] at h
        split at h
        · simp at h
        · rename_i mn1 st1 heq
          exact ihWR _ _ _ _ _ _ _ h (ihMRC _ _ _ _ _ _ _ heq hinv)
    · -- mergeLocalNode
      intro l st mn st' h hinv
      rw [mergeLocalNode] at h
      split at h
      · simp at h
      · rename_i g1 st1 heq
        have hinv1 : pairsInv st1 := by
          split at heq
          · rw [Except.ok.injEq, Prod.mk.injEq] at heq
            obtain ⟨-, h1⟩ := heq
            subst h1
            exact pairsInv_insMergedGuid _ hinv
          · split at heq
            · simp at heq
            · split at heq
              · rw [Except.ok.injEq, Prod.mk.injEq] at heq
                obtain ⟨-, h1⟩ := heq
                subst h1
                exact pairsInv_insMergedGuid _
                  (pairsInv_insMergedGuid _ hinv)
              · rw [Except.ok.injEq, Prod.mk.injEq] at heq
                obtain ⟨-, h1⟩ := heq
                subst h1
                exact pairsInv_insMergedGuid _ hinv
        split at h
        · exact ihWL _ _ _ _ _ _ _ h hinv1
        · cases h
          exact hinv1
    · -- mergeRemoteNode
      intro r st mn st' h hinv
      rw [mergeRemoteNode] at h
      split at h
      · simp at h
      · rename_i g1 st1 heq
        have hinv1 : pairsInv st1 := by
          split at heq
          · rw [Except.ok.injEq, Prod.mk.injEq] at heq
            obtain ⟨-, h1⟩ := heq
            subst h1
            exact pairsInv_insMergedGuid _ hinv
          · split at heq
            · simp at heq
            · split at heq
              · rw [Except.ok.injEq, Prod.mk.injEq] at heq
                obtain ⟨-, h1⟩ := heq
                subst h1
                exact pairsInv_insDeleteRemotely _
                  (pairsInv_insMergedGuid _
                    (pairsInv_insMergedGuid _ hinv))
              · rw [Except.ok.injEq, Prod.mk.injEq] at heq
                obtain ⟨-, h1⟩ := heq
                subst h1
                exact pairsInv_insMergedGuid _ hinv
        split at h
        · exact ihWR _ _ _ _ _ _ _ h hinv1
        · cases h
          exact hinv1
    · -- mergeRemoteChildIntoMergedNode
      intro mn lp rp rc st mn' st' h hinv
      rw [mergeRemoteChildIntoMergedNode] at h
      split at h
      · cases h
        exact hinv
      · rename_i hmem
        split at h
        · simp at h
        · rename_i chg1 mn1 st1 heq
          have hinv1 : pairsInv st1 := ihCL _ _ _ _ _ _ _ heq hinv
          split at h
          · cases h
            exact hinv1
          · rename_i hchg
            have hnd := checkLocal_nondeleted_state env fuel mn rp rc st chg1
              mn1 st1 heq (by simpa using hchg)
            have hguard1 : rc.guid ∉ st1.mergedGuids := by
              rcases hnd.2 with rfl | rfl
              · exact hmem
              · exact hmem
            split at h
            · split at h
              · simp at h
              · split at h
                · split at h
                  · simp at h
                  · rename_i mc1 st2 heq2
                    cases h
                    exact ihTW _ _ _ _ _ heq2 (pairsInv_slack _ hinv1)
                · split at h
                  · cases h
                    exact hinv1
                  · split at h
                    · simp at h
                    · rename_i mc1 st2 heq2
                      cases h
                      exact ihTW _ _ _ _ _ heq2 (pairsInv_slack _ hinv1)
            · -- dedup path
              split at h
              rename_i found1 st2 heq1
              cases found1 with
              | some ln =>
                have hfields := (findLocal_fields env mn1 lp rp rc st1 _ _
                  heq1).1 ln rfl
                have hslack := pairsInvSlack_retrieval_snd hguard1 hfields.1
                  hfields.2.1 hfields.2.2 hinv1
                split at h
                · simp at h
                · rename_i mc1 st3 heq2
                  cases h
                  exact ihTW _ _ _ _ _ heq2 hslack
              | none =>
                have hfields := (findLocal_fields env mn1 lp rp rc st1 _ _
                  heq1).2 rfl
                have hinv2 : pairsInv st2 :=
                  pairsInv_of_fields_eq hinv1 hfields.2.1
                    (fun g hg => hfields.1 ▸ hg) hfields.2.2
                split at h
                · simp at h
                · rename_i mc1 st3 heq2
                  cases h
                  exact ihMRN _ _ _ _ heq2 hinv2
    · -- mergeLocalChildIntoMergedNode
      intro mn lp rp lc st mn' st' h hinv
      rw [mergeLocalChildIntoMergedNode] at h
      split at h
      · cases h
        exact hinv
      · rename_i hmem
        split at h
        · simp at h
        · rename_i chg1 mn1 st1 heq
          have hinv1 : pairsInv st1 := ihCR _ _ _ _ _ _ _ heq hinv
          split at h
          · cases h
            exact hinv1
          · rename_i hchg
            have hnd := checkRemote_nondeleted_state env fuel mn lp lc st chg1
              mn1 st1 heq (by simpa using hchg)
            have hguard1 : lc.guid ∉ st1.mergedGuids := by
              rcases hnd.2 with rfl | rfl
              · exact hmem
              · exact hmem
            split at h
            · split at h
              · simp at h
              · split at h
                · split at h
                  · simp at h
                  · rename_i mc1 st2 heq2
                    cases h
                    exact ihTW _ _ _ _ _ heq2 (pairsInv_slack _ hinv1)
                · split at h
                  · split at h
                    · split at h
                      · simp at h
                      · rename_i mc1 st2 heq2
                        cases h
                        exact ihTW _ _ _ _ _ heq2 (pairsInv_slack _ hinv1)
                    · split at h
                      · simp at h
                      · rename_i mc1 st2 heq2
                        cases h
                        exact ihTW _ _ _ _ _ heq2 (pairsInv_slack _ hinv1)
                  · cases h
                    exact hinv1
            · -- dedup path
              split at h
              · rename_i rn st2 heq1
                have hfields := (findRemote_fields env mn1 lp rp lc st1 _ _
                  heq1).1 rn rfl
                have hslack := pairsInvSlack_retrieval_fst hguard1 hfields.1
                  hfields.2.1 hfields.2.2 hinv1
                split at h
                · simp at h
                · rename_i mc1 st3 heq2
                  have hinv3 := ihTW _ _ _ _ _ heq2 hslack
                  split at h
                  · cases h
                    exact hinv3
                  · cases h
                    exact hinv3
              · rename_i st2 heq1
                have hfields := (findRemote_fields env mn1 lp rp lc st1 _ _
                  heq1).2 rfl
                have hinv2 : pairsInv st2 :=
                  pairsInv_of_fields_eq hinv1 hfields.2.1
                    (fun g hg => hfields.1 ▸ hg) hfields.2.2
                split at h
                · simp at h
                · rename_i mc1 st3 heq2
                  cases h
                  exact ihMLN _ _ _ _ heq2 hinv2
    · -- checkForLocalStructureChangeOfRemoteNode
      intro mn rp r st c mn' st' h hinv
      rw [checkForLocalStructureChangeOfRemoteNode] at h
      simp only [] at h
      split at h
      · split at h
        · split at h
          · simp at h
          · rename_i mn1 st1 heq
            cases h
            exact ihRR _ _ _ _ _ _ heq (pairsInv_insDeleteRemotely _ hinv)
        · cases h
          exact pairsInv_insDeleteRemotely _ hinv
      · split at h
        · split at h
          · split at h
            · split at h
              · split at h
                · simp at h
                · rename_i mn1 st1 heq
                  cases h
                  exact ihRR _ _ _ _ _ _ heq
                    (pairsInv_insDeleteRemotely _ hinv)
              · cases h
                exact pairsInv_insDeleteRemotely _ hinv
            · split at h
              · simp at h
              · split at h
                · cases h
                  exact hinv
                · cases h
                  exact hinv
          · cases h
            exact hinv
        · split at h
          · cases h
            exact pairsInv_bumpRemoteRevives hinv
          · have hinv2 : pairsInv (insDeleteRemotely r.guid
                (if r.needsMerge then bumpLocalDeletes st else st)) := by
              refine pairsInv_insDeleteRemotely _ ?_
              split
              · exact pairsInv_bumpLocalDeletes hinv
              · exact hinv
            split at h
            · split at h
              · simp at h
              · rename_i mn1 st1 heq
                cases h
                exact ihRR _ _ _ _ _ _ heq hinv2
            · cases h
              exact hinv2
    · -- checkForRemoteStructureChangeOfLocalNode
      intro mn lp l st c mn' st' h hinv
      rw [checkForRemoteStructureChangeOfLocalNode] at h
      simp only [] at h
      split at h
      · split at h
        · split at h
          · simp at h
          · rename_i mn1 st1 heq
            cases h
            exact ihRL _ _ _ _ _ _ heq (pairsInv_insDeleteLocally _ hinv)
        · cases h
          exact pairsInv_insDeleteLocally _ hinv
      · split at h
        · split at h
          · split at h
            · split at h
              · split at h
                · simp at h
                · rename_i mn1 st1 heq
                  cases h
                  exact ihRL _ _ _ _ _ _ heq
                    (pairsInv_insDeleteLocally _ hinv)
              · cases h
                exact pairsInv_insDeleteLocally _ hinv
            · split at h
              · simp at h
              · split at h
                · cases h
                  exact hinv
                · cases h
                  exact hinv
          · cases h
            exact hinv
        · split at h
          · cases h
            exact pairsInv_bumpLocalRevives hinv
          · have hinv2 : pairsInv (insDeleteLocally l.guid
                (if l.needsMerge then bumpRemoteDeletes st else st)) := by
              refine pairsInv_insDeleteLocally _ ?_
              split
              · exact pairsInv_bumpRemoteDeletes hinv
              · exact hinv
            split at h
            · split at h
              · simp at h
              · rename_i mn1 st1 heq
                cases h
                exact ihRL _ _ _ _ _ _ heq hinv2
            · cases h
              exact hinv2
    · -- relocateRemoteOrphansToMergedNode
      intro mn r cs st mn' st' h hinv
      cases cs with
      | nil =>
        rw [relocateRemoteOrphansToMergedNode] at h
        cases h
        exact hinv
      | cons c rest =>
        rw [relocateRemoteOrphansToMergedNode] at h
        split at h
        · exact ihRR _ _ _ _ _ _ h hinv
        · split at h
          · simp at h
          · rename_i chg1 mn1 st1 heq
            have hinv1 : pairsInv st1 := ihCL _ _ _ _ _ _ _ heq hinv
            split at h
            · split at h
              · simp at h
              · rename_i orphan st2 heq2
                have hinv2 : pairsInv st2 := by
                  cases hfn : findNode env.localTree.root c.guid with
                  | some lc =>
                    rw [hfn] at heq2
                    exact ihTW _ _ _ _ _ heq2 (pairsInv_slack _ hinv1)
                  | none =>
                    rw [hfn] at heq2
                    exact ihMRN _ _ _ _ heq2 hinv1
                exact ihRR _ _ _ _ _ _ h hinv2
            all_goals exact ihRR _ _ _ _ _ _ h hinv1
    · -- relocateLocalOrphansToMergedNode
      intro mn l cs st mn' st' h hinv
      cases cs with
      | nil =>
        rw [relocateLocalOrphansToMergedNode] at h
        cases h
        exact hinv
      | cons c rest =>
        rw [relocateLocalOrphansToMergedNode] at h
        split at h
        · exact ihRL _ _ _ _ _ _ h hinv
        · split at h
          · simp at h
          · rename_i chg1 mn1 st1 heq
            have hinv1 : pairsInv st1 := ihCR _ _ _ _ _ _ _ heq hinv
            split at h
            · split at h
              · simp at h
              · rename_i orphan st2 heq2
                have hinv2 : pairsInv st2 := by
                  cases hfn : findNode env.remoteTree.root c.guid with
                  | some rc =>
                    rw [hfn] at heq2
                    exact ihTW _ _ _ _ _ heq2 (pairsInv_slack _ hinv1)
                  | none =>
                    rw [hfn] at heq2
                    exact ihMLN _ _ _ _ heq2 hinv1
                exact ihRL _ _ _ _ _ _ h hinv2
            all_goals exact ihRL _ _ _ _ _ _ h hinv1

/-- The tombstone finalizer only inserts into deletion sets, so it preserves
the dedup-counting invariant for either insertion function. -/
theorem pairsInv_applyTombstones (toms : List Guid)
    (ins : Guid → MState → MState)
    (hins : ∀ g st, pairsInv st → pairsInv (ins g st)) :
    ∀ st, pairsInv st → pairsInv (applyTombstones toms ins st) := by
  induction toms with
  | nil =>
    intro st h
    simpa [applyTombstones] using h
  | cons g rest ih =>
    intro st h
    have hstep : applyTombstones (g :: rest) ins st =
        applyTombstones rest ins (if mentions st g then st else ins g st) := by
      simp [applyTombstones]
    rw [hstep]
    split
    · exact ih st h
    · exact ih _ (hins g st h)

/-- The invariant holds at the start of the merge: no pairings recorded,
`dupes` zero. -/
theorem pairsInvSlack_init (extra : List Guid) :
    pairsInvSlack initState extra :=
  ⟨List.nodup_nil, fun p hp => absurd hp (List.not_mem_nil p), rfl⟩

/-- C7: over a whole (successful) run of `merge()`, `dupes` equals the
number of recorded pairings and no pairing is recorded twice, so the counter
counts distinct local↔remote pairings; the increment happens exactly at the
point a pairing is retrieved from the memoised maps — a hit adds one and one
recording, a miss adds nothing — and never when the maps are constructed
(`cacheEnsure`, which wraps the pure `find_all_matching_dupes_in_folders`,
leaves every counter and the recordings unchanged). -/
theorem c7_dupes_counts_retrieved_pairings (env : MergerEnv) (fuel : Nat) :
    (∀ mn st, merge env fuel = .ok (mn, st) →
      st.structureCounts.dupes = st.retrievedPairs.length ∧
      st.retrievedPairs.Nodup) ∧
    (∀ mn0 lp rpo lc st res st',
      findRemoteNodeMatchingLocalNode env mn0 lp rpo lc st = (res, st') →
      (∀ rn, res = some rn →
        st'.structureCounts.dupes = st.structureCounts.dupes + 1 ∧
        st'.retrievedPairs = st.retrievedPairs ++ [(lc.guid, rn.guid)]) ∧
      (res = none →
        st'.structureCounts.dupes = st.structureCounts.dupes ∧
        st'.retrievedPairs = st.retrievedPairs)) ∧
    (∀ mn0 lpo rp rc st res st',
      findLocalNodeMatchingRemoteNode env mn0 lpo rp rc st = (res, st') →
      (∀ ln, res = some ln →
        st'.structureCounts.dupes = st.structureCounts.dupes + 1 ∧
        st'.retrievedPairs = st.retrievedPairs ++ [(ln.guid, rc.guid)]) ∧
      (res = none →
        st'.structureCounts.dupes = st.structureCounts.dupes ∧
        st'.retrievedPairs = st.retrievedPairs)) ∧
    (∀ st lp rp,
      (cacheEnsure env st lp rp).2.structureCounts = st.structureCounts ∧
      (cacheEnsure env st lp rp).2.retrievedPairs = st.retrievedPairs) := by
  refine ⟨?_, ?_, ?_, ?_⟩
  · intro mn st h
    rw [merge] at h
    split at h
    · simp at h
    · rename_i mn0 st0 heq
      rw [Except.ok.injEq, Prod.mk.injEq] at h
      obtain ⟨-, hst⟩ := h
      subst hst
      have hinv0 : pairsInv st0 :=
        (pairsInv_walk env fuel).1 _ _ _ _ _ heq (pairsInvSlack_init _)
      have hinv1 := pairsInv_applyTombstones env.localTree.tombstones
        insDeleteRemotely (fun g st h => pairsInv_insDeleteRemotely g h)
        st0 hinv0
      have hinv2 := pairsInv_applyTombstones env.remoteTree.tombstones
        insDeleteLocally (fun g st h => pairsInv_insDeleteLocally g h)
        _ hinv1
      exact ⟨hinv2.2.2, hinv2.1⟩
  · intro mn0 lp rpo lc st res st' h
    have hf := findRemote_fields env mn0 lp rpo lc st res st' h
    exact ⟨fun rn hrn => ⟨(hf.1 rn hrn).2.2, (hf.1 rn hrn).2.1⟩,
      fun hn => ⟨(hf.2 hn).2.2, (hf.2 hn).2.1⟩⟩
  · intro mn0 lpo rp rc st res st' h
    have hf := findLocal_fields env mn0 lpo rp rc st res st' h
    exact ⟨fun ln hln => ⟨(hf.1 ln hln).2.2, (hf.1 ln hln).2.1⟩,
      fun hn => ⟨(hf.2 hn).2.2, (hf.2 hn).2.1⟩⟩
  · intro st lp rp
    exact ⟨(cacheEnsure_fields env st lp rp).2.2,
      (cacheEnsure_fields env st lp rp).2.1⟩

/-- The content-dedup scenario (S5): local `R{P{10}}`, remote `R{P{11}}`,
guids 10 and 11 unsynced with the same fingerprint 77. -/
def s5LocalRoot : TNode := rootN 1 [folderN 2 true [bookmarkN 10 true]]

def s5RemoteRoot : TNode := rootN 1 [folderN 2 true [bookmarkN 11 true]]

def s5Env : MergerEnv :=
  ⟨⟨s5LocalRoot, []⟩, some [(10, 77)], ⟨s5RemoteRoot, []⟩, some [(11, 77)],
   defaultDriver, fun _ => true⟩

/-- Witness for C7 at the dedup scenario: the merge succeeds with exactly
one retrieved pairing, `(10, 11)`, and `dupes = 1`. -/
theorem c7_dupes_counts_retrieved_pairings_witness :
    (match merge s5Env 50 with
     | .ok (_, st) => (st.structureCounts.dupes, st.retrievedPairs)
     | .error _ => (0, [])) = (1, [(10, 11)]) ∧
    (match merge s5Env 50 with
     | .ok (_, st) =>
       st.structureCounts.dupes = st.retrievedPairs.length ∧
       st.retrievedPairs.Nodup
     | .error _ => False) := by
  constructor
  · rfl
  · cases hm : merge s5Env 50 with
    | ok p =>
      exact (c7_dupes_counts_retrieved_pairings s5Env 50).1 p.1 p.2
        (by rw [hm])
    | error e =>
      rw [show merge s5Env 50 = .ok ((merge s5Env 50).toOption.get
        (by rfl)) from rfl] at hm
      cases hm

/-! ## C6 — merging a calm tree with itself -/

/-- The environment for merging a tree with itself: both sides hold the same
root and no tombstones. -/
def c6Env (R : TNode) : MergerEnv :=
  envOf ⟨R, []⟩ ⟨R, []⟩

mutual

/-- Spec-side notion for C6: every node is unchanged (`needs_merge == false`),
non-diverged and syncable, and no node below the top carries the `is_root` or
`is_user_content_root` flag. -/
def calm : TNode → Bool
  | .mk _ _ _ nm dv sy _ _ cs => !nm && !dv && sy && calmList cs

def calmList : List TNode → Bool
  | [] => true
  | c :: rest => (!c.isRoot && !c.isUserContentRoot && calm c) && calmList rest

end

mutual

/-- The expected merged image of a calm subtree: same guid, `Unchanged` merge
state holding the node on both sides, no `new_structure` flag, children in
order. -/
def calmMerged : TNode → MergedNode
  | .mk g k a nm dv sy uc rt cs =>
    .mk g ⟨.vunchanged (.mk g k a nm dv sy uc rt cs)
      (.mk g k a nm dv sy uc rt cs), false⟩ (calmMergedList cs)

def calmMergedList : List TNode → List MergedNode
  | [] => []
  | c :: rest => calmMerged c :: calmMergedList rest

end

mutual

/-- The `merged_guids` list produced by a calm identical merge: a preorder
walk consing each guid onto the accumulator. -/
def pushGuids : TNode → List Guid → List Guid
  | .mk g _ _ _ _ _ _ _ cs, acc => pushGuidsList cs (g :: acc)

def pushGuidsList : List TNode → List Guid → List Guid
  | [], acc => acc
  | c :: rest, acc => pushGuidsList rest (pushGuids c acc)

end

mutual

/-- A fuel budget sufficient to run the calm identical merge of a subtree. -/
def needF : TNode → Nat
  | .mk _ _ _ _ _ _ _ _ cs => needFL cs + 3

def needFL : List TNode → Nat
  | [] => 1
  | c :: rest => needF c + needFL rest + 3

end

/-- Reachability of a node inside a tree: the reflexive-transitive closure of
"is a child of". -/
inductive SubNode : TNode → TNode → Prop where
  | refl (n : TNode) : SubNode n n
  | child {m c n : TNode} : c ∈ n.children → SubNode m c → SubNode m n

theorem subnode_trans {a b c : TNode} (hab : SubNode a b) (hbc : SubNode b c) :
    SubNode a c := by
  induction hbc with
  | refl => exact hab
  | child hc _ ih => exact .child hc ih

theorem subnode_of_child {c p : TNode} (hc : c ∈ p.children) : SubNode c p :=
  .child hc (.refl c)

theorem collectGuids_eq (g : Guid) (k : Kind) (a : Nat) (nm dv sy uc rt : Bool)
    (cs : List TNode) :
    collectGuids (.mk g k a nm dv sy uc rt cs) = g :: collectGuidsList cs :=
  rfl

theorem guid_mem_collect (n : TNode) : n.guid ∈ collectGuids n := by
  cases n with
  | mk g k a nm dv sy uc rt cs => simp [collectGuids, TNode.guid]

theorem mem_collectList_of_mem {c : TNode} {cs : List TNode} {g : Guid}
    (hc : c ∈ cs) (hg : g ∈ collectGuids c) : g ∈ collectGuidsList cs := by
  induction cs with
  | nil => cases hc
  | cons d rest ih =>
    rw [collectGuidsList, List.mem_append]
    rcases List.mem_cons.1 hc with h | h
    · exact Or.inl (h ▸ hg)
    · exact Or.inr (ih h)

theorem subnode_collect_sub {m n : TNode} (h : SubNode m n) :
    ∀ g, g ∈ collectGuids m → g ∈ collectGuids n := by
  induction h with
  | refl => exact fun g hg => hg
  | child hc _ ih =>
    intro g hg
    rename_i p q hsub
    cases q with
    | mk qg qk qa qnm qdv qsy quc qrt qcs =>
      rw [collectGuids_eq]
      exact List.mem_cons_of_mem _
        (mem_collectList_of_mem hc (ih g hg))

theorem guid_mem_collect_of_subnode {m n : TNode} (h : SubNode m n) :
    m.guid ∈ collectGuids n :=
  subnode_collect_sub h _ (guid_mem_collect m)

theorem nodup_collect_chunk {cs : List TNode} {c : TNode}
    (hnd : (collectGuidsList cs).Nodup) (hc : c ∈ cs) :
    (collectGuids c).Nodup := by
  induction cs with
  | nil => cases hc
  | cons d rest ih =>
    rw [collectGuidsList, List.nodup_append] at hnd
    rcases List.mem_cons.1 hc with h | h
    · exact h ▸ hnd.1
    · exact ih hnd.2.1 h

theorem collect_chunks_unique {cs : List TNode} {c d : TNode} {g : Guid}
    (hnd : (collectGuidsList cs).Nodup) (hc : c ∈ cs) (hd : d ∈ cs)
    (hgc : g ∈ collectGuids c) (hgd : g ∈ collectGuids d) : c = d := by
  induction cs with
  | nil => cases hc
  | cons e rest ih =>
    rw [collectGuidsList, List.nodup_append] at hnd
    rcases List.mem_cons.1 hc with h1 | h1 <;> rcases List.mem_cons.1 hd with h2 | h2
    · exact h1.trans h2.symm
    · exact (hnd.2.2 (h1 ▸ hgc) (mem_collectList_of_mem h2 hgd)).elim
    · exact (hnd.2.2 (h2 ▸ hgd) (mem_collectList_of_mem h1 hgc)).elim
    · exact ih hnd.2.1 h1 h2

theorem nodup_collect_subnode {m n : TNode} (h : SubNode m n) :
    (collectGuids n).Nodup → (collectGuids m).Nodup := by
  induction h with
  | refl => exact fun hnd => hnd
  | @child cc nn hc hsub ih =>
    intro hnd
    apply ih
    cases nn with
    | mk g k a nm dv sy uc rt cs =>
      rw [collectGuids_eq] at hnd
      exact nodup_collect_chunk hnd.of_cons (by simpa [TNode.children] using hc)

theorem findNodeList_eq_none {cs : List TNode} {g : Guid}
    (h : ∀ c ∈ cs, findNode c g = none) : findNodeList cs g = none := by
  induction cs with
  | nil => rw [findNodeList]
  | cons c rest ih =>
    rw [findNodeList, h c (List.mem_cons_self c rest)]
    exact ih (fun d hd => h d (List.mem_cons_of_mem _ hd))

theorem findNode_eq_none (n : TNode) :
    ∀ g, g ∉ collectGuids n → findNode n g = none := by
  induction n using TNode.inductionOn with
  | h ng k a nm dv sy uc rt cs ih =>
    intro g hg
    rw [collectGuids_eq] at hg
    have hg1 : ng ≠ g := fun he => hg (he ▸ List.mem_cons_self _ _)
    rw [findNode, if_neg hg1]
    exact findNodeList_eq_none (fun c hcm => ih c hcm g
      (fun h2 => hg (List.mem_cons_of_mem _ (mem_collectList_of_mem hcm h2))))

theorem findParentList_eq_none {cs : List TNode} {g : Guid}
    (h : ∀ c ∈ cs, findParent c g = none) : findParentList cs g = none := by
  induction cs with
  | nil => rw [findParentList]
  | cons c rest ih =>
    rw [findParentList, h c (List.mem_cons_self c rest)]
    exact ih (fun d hd => h d (List.mem_cons_of_mem _ hd))

theorem findParent_eq_none (n : TNode) :
    ∀ g, g ∉ collectGuids n → findParent n g = none := by
  induction n using TNode.inductionOn with
  | h ng k a nm dv sy uc rt cs ih =>
    intro g hg
    rw [collectGuids_eq] at hg
    have hg2 : g ∉ collectGuidsList cs := fun h2 => hg (List.mem_cons_of_mem _ h2)
    have hany : (cs.any fun c => c.guid = g) = false := by
      rw [List.any_eq_false]
      intro c hcm
      simp only [decide_eq_true_eq]
      intro he
      exact hg2 (mem_collectList_of_mem hcm (he ▸ guid_mem_collect c))
    rw [findParent, hany]
    simp only [Bool.false_eq_true, if_false]
    exact findParentList_eq_none (fun c hcm => ih c hcm g
      (fun h2 => hg2 (mem_collectList_of_mem hcm h2)))

theorem findNodeList_eq_some {cs : List TNode} {c m : TNode} {g : Guid}
    (hnd : (collectGuidsList cs).Nodup) (hc : c ∈ cs) (hg : g ∈ collectGuids c)
    (hf : findNode c g = some m) : findNodeList cs g = some m := by
  induction cs with
  | nil => cases hc
  | cons d rest ih =>
    rw [collectGuidsList, List.nodup_append] at hnd
    rw [findNodeList]
    rcases List.mem_cons.1 hc with h | h
    · rw [← h, hf]
    · rw [findNode_eq_none d g (fun hm => hnd.2.2 hm (mem_collectList_of_mem h hg))]
      exact ih hnd.2.1 h

theorem findParentList_eq_some {cs : List TNode} {c p : TNode} {g : Guid}
    (hnd : (collectGuidsList cs).Nodup) (hc : c ∈ cs) (hg : g ∈ collectGuids c)
    (hf : findParent c g = some p) : findParentList cs g = some p := by
  induction cs with
  | nil => cases hc
  | cons d rest ih =>
    rw [collectGuidsList, List.nodup_append] at hnd
    rw [findParentList]
    rcases List.mem_cons.1 hc with h | h
    · rw [← h, hf]
    · rw [findParent_eq_none d g (fun hm => hnd.2.2 hm (mem_collectList_of_mem h hg))]
      exact ih hnd.2.1 h

theorem findNode_self (n : TNode) : findNode n n.guid = some n := by
  cases n with
  | mk g k a nm dv sy uc rt cs => simp [findNode, TNode.guid]

theorem findNode_subnode {m n : TNode} (h : SubNode m n) :
    (collectGuids n).Nodup → findNode n m.guid = some m := by
  induction h with
  | refl => exact fun _ => findNode_self m
  | @child cc nn hc hsub ih =>
    intro hnd
    cases nn with
    | mk g k a nm dv sy uc rt cs =>
      rw [collectGuids_eq] at hnd
      have hcs : cc ∈ cs := by simpa [TNode.children] using hc
      have hndl : (collectGuidsList cs).Nodup := hnd.of_cons
      have hmc : m.guid ∈ collectGuids cc := guid_mem_collect_of_subnode hsub
      have hgm : g ≠ m.guid := fun he =>
        (List.nodup_cons.1 hnd).1 (he ▸ mem_collectList_of_mem hcs hmc)
      rw [findNode, if_neg hgm]
      exact findNodeList_eq_some hndl hcs hmc (ih (nodup_collect_chunk hndl hcs))

theorem subnode_childguid_mem {p q c : TNode} (h : SubNode p q)
    (hc : c ∈ p.children) : c.guid ∈ collectGuidsList q.children := by
  induction h with
  | refl => exact mem_collectList_of_mem hc (guid_mem_collect c)
  | @child dd nn hd hsub ih =>
    apply mem_collectList_of_mem hd
    cases dd with
    | mk g k a nm dv sy uc rt cs =>
      rw [collectGuids_eq]
      exact List.mem_cons_of_mem _ (by simpa [TNode.children] using ih)

theorem findParent_subnode {p n c : TNode} (h : SubNode p n)
    (hc : c ∈ p.children) :
    (collectGuids n).Nodup → findParent n c.guid = some p := by
  induction h with
  | refl =>
    intro _
    cases p with
    | mk g k a nm dv sy uc rt cs =>
      have hany : (cs.any fun d => d.guid = c.guid) = true := by
        rw [List.any_eq_true]
        exact ⟨c, by simpa [TNode.children] using hc, by simp⟩
      rw [findParent, hany]
      rfl
  | @child dd nn hd hsub ih =>
    intro hnd
    cases nn with
    | mk g k a nm dv sy uc rt cs =>
      rw [collectGuids_eq] at hnd
      have hds : dd ∈ cs := by simpa [TNode.children] using hd
      have hndl : (collectGuidsList cs).Nodup := hnd.of_cons
      have hin : c.guid ∈ collectGuidsList dd.children :=
        subnode_childguid_mem hsub hc
      have hcd : c.guid ∈ collectGuids dd := by
        cases dd with
        | mk dg dk da dnm ddv dsy duc drt dcs =>
          rw [collectGuids_eq]
          exact List.mem_cons_of_mem _ (by simpa [TNode.children] using hin)
      have hany : (cs.any fun e => e.guid = c.guid) = false := by
        rw [List.any_eq_false]
        intro e hem
        simp only [decide_eq_true_eq]
        intro he
        have hce : c.guid ∈ collectGuids e := he ▸ guid_mem_collect e
        have hed : e = dd := collect_chunks_unique hndl hem hds hce hcd
        have hndd := nodup_collect_chunk hndl hds
        revert hin hndd
        cases dd with
        | mk dg dk da dnm ddv dsy duc drt dcs =>
          intro hin hndd
          rw [collectGuids_eq] at hndd
          have hdg : dg = c.guid := by
            have h3 := hed ▸ he
            simpa [TNode.guid] using h3
          exact (List.nodup_cons.1 hndd).1
            (hdg ▸ (by simpa [TNode.children] using hin))
      rw [findParent, hany]
      simp only [Bool.false_eq_true, if_false]
      exact findParentList_eq_some hndl hds hcd (ih (nodup_collect_chunk hndl hds))

theorem collect_head (n : TNode) :
    collectGuids n = n.guid :: collectGuidsList n.children := by
  cases n with
  | mk g k a nm dv sy uc rt cs => rfl

theorem mem_pushGuidsList_aux (cs : List TNode)
    (ih : ∀ c ∈ cs, ∀ acc g, (g ∈ pushGuids c acc ↔ g ∈ collectGuids c ∨ g ∈ acc)) :
    ∀ acc g, (g ∈ pushGuidsList cs acc ↔ g ∈ collectGuidsList cs ∨ g ∈ acc) := by
  induction cs with
  | nil =>
    intro acc g
    rw [pushGuidsList, collectGuidsList]
    simp
  | cons c rest ihl =>
    intro acc g
    rw [pushGuidsList, collectGuidsList]
    rw [ihl (fun d hd => ih d (List.mem_cons_of_mem _ hd)) (pushGuids c acc) g]
    rw [ih c (List.mem_cons_self c rest) acc g]
    simp only [List.mem_append]
    tauto

theorem mem_pushGuids (n : TNode) :
    ∀ acc g, (g ∈ pushGuids n acc ↔ g ∈ collectGuids n ∨ g ∈ acc) := by
  induction n using TNode.inductionOn with
  | h ng k a nm dv sy uc rt cs ih =>
    intro acc g
    rw [pushGuids, collectGuids_eq]
    rw [mem_pushGuidsList_aux cs (fun c hc => ih c hc) (ng :: acc) g]
    simp only [List.mem_cons]
    tauto

theorem mem_pushGuidsList (cs : List TNode) :
    ∀ acc g, (g ∈ pushGuidsList cs acc ↔ g ∈ collectGuidsList cs ∨ g ∈ acc) :=
  mem_pushGuidsList_aux cs (fun c _ => mem_pushGuids c)

theorem calm_fields {n : TNode} (h : calm n = true) :
    n.needsMerge = false ∧ n.diverged = false ∧ n.isSyncable = true ∧
      calmList n.children = true := by
  cases n with
  | mk g k a nm dv sy uc rt cs =>
    rw [calm] at h
    simp only [Bool.and_eq_true, Bool.not_eq_true'] at h
    simp only [TNode.needsMerge, TNode.diverged, TNode.isSyncable, TNode.children]
    exact ⟨h.1.1.1, h.1.1.2, h.1.2, h.2⟩

theorem calmList_mem {cs : List TNode} {c : TNode} (h : calmList cs = true)
    (hc : c ∈ cs) :
    c.isRoot = false ∧ c.isUserContentRoot = false ∧ calm c = true := by
  induction cs with
  | nil => cases hc
  | cons d rest ih =>
    rw [calmList] at h
    simp only [Bool.and_eq_true, Bool.not_eq_true'] at h
    rcases List.mem_cons.1 hc with h1 | h1
    · exact h1 ▸ ⟨h.1.1.1, h.1.1.2, h.1.2⟩
    · exact ih h.2 h1

theorem needF_eq (n : TNode) : needF n = needFL n.children + 3 := by
  cases n with
  | mk g k a nm dv sy uc rt cs => rfl

theorem needFL_pos (cs : List TNode) : 1 ≤ needFL cs := by
  induction cs with
  | nil => rw [needFL]
  | cons c rest ih => rw [needFL]; omega

theorem needF_ge (n : TNode) : 4 ≤ needF n := by
  cases n with
  | mk g k a nm dv sy uc rt cs =>
    rw [needF]
    have := needFL_pos cs
    omega

theorem needFL_ge (cs : List TNode) : cs.length + 1 ≤ needFL cs := by
  induction cs with
  | nil => rw [needFL, List.length_nil]
  | cons c rest ih =>
    rw [needFL, List.length_cons]
    have := needF_ge c
    omega

theorem c6Env_localRoot (R : TNode) : (c6Env R).localTree.root = R := rfl

theorem c6Env_remoteRoot (R : TNode) : (c6Env R).remoteTree.root = R := rfl

theorem c6Env_localDeleted (R : TNode) (g : Guid) :
    (c6Env R).localTree.isDeleted g = false := rfl

theorem c6Env_remoteDeleted (R : TNode) (g : Guid) :
    (c6Env R).remoteTree.isDeleted g = false := rfl

theorem hasCompatibleKind_refl (k : Kind) : hasCompatibleKind k k = true := by
  cases k <;> rfl

theorem resolveValueConflict_root {l r : TNode} (h : r.isRoot = true) :
    resolveValueConflict l r = (.clocal, .clocal) := by
  simp [resolveValueConflict, h]

theorem resolveValueConflict_calm {n : TNode} (hroot : n.isRoot = false)
    (hnm : n.needsMerge = false) :
    resolveValueConflict n n = (.cunchanged, .cunchanged) := by
  simp [resolveValueConflict, hroot, hnm]

theorem resolveStructureConflict_calm {p c q : TNode}
    (huc : c.isUserContentRoot = false) (hp : p.needsMerge = false)
    (hq : q.needsMerge = false) :
    resolveStructureConflict p c q c = .cunchanged := by
  simp [resolveStructureConflict, huc, hp, hq]

theorem push_guid (m c : MergedNode) : (m.push c).guid = m.guid := by
  cases m with
  | mk g s cs => rfl

theorem push_state (m c : MergedNode) : (m.push c).state = m.state := by
  cases m with
  | mk g s cs => rfl

theorem push_children (m c : MergedNode) :
    (m.push c).mergedChildren = m.mergedChildren ++ [c] := by
  cases m with
  | mk g s cs => rfl

theorem remoteGuidChanged_push (m c : MergedNode) :
    (m.push c).remoteGuidChanged = m.remoteGuidChanged := by
  cases m with
  | mk g s cs => rfl

theorem mergedNode_eta (m : MergedNode) :
    MergedNode.mk m.guid m.state m.mergedChildren = m := by
  cases m with
  | mk g s cs => rfl

theorem calmMerged_eq (n : TNode) :
    calmMerged n =
      .mk n.guid ⟨.vunchanged n n, false⟩ (calmMergedList n.children) := by
  cases n with
  | mk g k a nm dv sy uc rt cs => rfl

theorem pushGuids_eq (n : TNode) (acc : List Guid) :
    pushGuids n acc = pushGuidsList n.children (n.guid :: acc) := by
  cases n with
  | mk g k a nm dv sy uc rt cs => rfl

theorem checkLocal_calm_unchanged (env : MergerEnv) (fuel : Nat)
    (mn : MergedNode) (p c q : TNode) (st : MState)
    (hsy : c.isSyncable = true)
    (htomb : env.localTree.isDeleted c.guid = false)
    (hfind : findNode env.localTree.root c.guid = some c)
    (hpar : findParent env.localTree.root c.guid = some q)
    (hq : q.guid = p.guid) :
    checkForLocalStructureChangeOfRemoteNode env (fuel + 1) mn p c st =
      .ok (.unchanged, mn, st) := by
  rw [checkForLocalStructureChangeOfRemoteNode]
  simp [hsy, htomb, hfind, hpar, hq]

theorem checkRemote_calm_unchanged (env : MergerEnv) (fuel : Nat)
    (mn : MergedNode) (p c q : TNode) (st : MState)
    (hsy : c.isSyncable = true)
    (htomb : env.remoteTree.isDeleted c.guid = false)
    (hfind : findNode env.remoteTree.root c.guid = some c)
    (hpar : findParent env.remoteTree.root c.guid = some q)
    (hq : q.guid = p.guid) :
    checkForRemoteStructureChangeOfLocalNode env (fuel + 1) mn p c st =
      .ok (.unchanged, mn, st) := by
  rw [checkForRemoteStructureChangeOfLocalNode]
  simp [hsy, htomb, hfind, hpar, hq]

theorem mergeLocalChild_mem_skip (env : MergerEnv) (fuel : Nat)
    (mn : MergedNode) (p : TNode) (rp : Option TNode) (c : TNode) (st : MState)
    (hmem : c.guid ∈ st.mergedGuids) :
    mergeLocalChildIntoMergedNode env (fuel + 1) mn p rp c st = .ok (mn, st) := by
  rw [mergeLocalChildIntoMergedNode, if_pos hmem]

theorem mergeLocalChild_calm_noop (env : MergerEnv) (fuel : Nat)
    (mn : MergedNode) (p : TNode) (rp : Option TNode) (c : TNode) (st : MState)
    (hmem : c.guid ∉ st.mergedGuids)
    (hchk : checkForRemoteStructureChangeOfLocalNode env fuel mn p c st =
      .ok (.unchanged, mn, st))
    (hfind : findNode env.remoteTree.root c.guid = some c)
    (hpar : findParent env.remoteTree.root c.guid = some p)
    (hdel : env.localTree.isDeleted p.guid = false)
    (hres : resolveStructureConflict p c p c = .cunchanged) :
    mergeLocalChildIntoMergedNode env (fuel + 1) mn p rp c st = .ok (mn, st) := by
  rw [mergeLocalChildIntoMergedNode, if_neg hmem, hchk]
  simp [hfind, hpar, hdel, hres]

theorem walkLocal_mem_skip (env : MergerEnv) :
    ∀ (cs : List TNode) (fuel : Nat) (mn : MergedNode) (p : TNode)
      (rp : Option TNode) (st : MState),
    (∀ c ∈ cs, c.guid ∈ st.mergedGuids) → cs.length + 2 ≤ fuel →
    walkLocalChildren env fuel mn p rp cs st = .ok (mn, st) := by
  intro cs
  induction cs with
  | nil =>
    intro fuel mn p rp st _ hfuel
    obtain ⟨f, rfl⟩ : ∃ f, fuel = f + 1 := ⟨fuel - 1, by omega⟩
    rw [walkLocalChildren]
  | cons c rest ih =>
    intro fuel mn p rp st hmem hfuel
    rw [List.length_cons] at hfuel
    obtain ⟨f, rfl⟩ : ∃ f, fuel = f + 1 := ⟨fuel - 1, by omega⟩
    rw [walkLocalChildren]
    obtain ⟨f2, rfl⟩ : ∃ f2, f = f2 + 1 := ⟨f - 1, by omega⟩
    rw [mergeLocalChild_mem_skip env f2 mn p rp c st (hmem c (List.mem_cons_self c rest))]
    exact ih (f2 + 1) mn p rp st
      (fun d hd => hmem d (List.mem_cons_of_mem _ hd)) (by omega)

theorem walkLocal_calm_noop (R : TNode) (hndR : (collectGuids R).Nodup) :
    ∀ (cs : List TNode) (fuel : Nat) (mn : MergedNode) (p : TNode)
      (rp : Option TNode) (st : MState),
    SubNode p R → p.needsMerge = false →
    (∀ c ∈ cs, c ∈ p.children) → calmList cs = true →
    (∀ c ∈ cs, c.guid ∉ st.mergedGuids) →
    cs.length + 3 ≤ fuel →
    walkLocalChildren (c6Env R) fuel mn p rp cs st = .ok (mn, st) := by
  intro cs
  induction cs with
  | nil =>
    intro fuel mn p rp st _ _ _ _ _ hfuel
    obtain ⟨f, rfl⟩ : ∃ f, fuel = f + 1 := ⟨fuel - 1, by omega⟩
    rw [walkLocalChildren]
  | cons c rest ih =>
    intro fuel mn p rp st hsubp hpnm hmemp hclm hng hfuel
    rw [List.length_cons] at hfuel
    obtain ⟨f, rfl⟩ : ∃ f, fuel = f + 1 := ⟨fuel - 1, by omega⟩
    rw [walkLocalChildren]
    obtain ⟨f2, rfl⟩ : ∃ f2, f = f2 + 1 := ⟨f - 1, by omega⟩
    obtain ⟨f3, rfl⟩ : ∃ f3, f2 = f3 + 1 := ⟨f2 - 1, by omega⟩
    have hcp : c ∈ p.children := hmemp c (List.mem_cons_self c rest)
    obtain ⟨hcroot, hcuc, hccalm⟩ := calmList_mem hclm (List.mem_cons_self c rest)
    obtain ⟨hcnm, hcdv, hcsy, hccl⟩ := calm_fields hccalm
    have hsubc : SubNode c R := subnode_trans (subnode_of_child hcp) hsubp
    have hfind : findNode (c6Env R).remoteTree.root c.guid = some c := by
      rw [c6Env_remoteRoot]
      exact findNode_subnode hsubc hndR
    have hpar : findParent (c6Env R).remoteTree.root c.guid = some p := by
      rw [c6Env_remoteRoot]
      exact findParent_subnode hsubp hcp hndR
    rw [mergeLocalChild_calm_noop (c6Env R) (f3 + 1) mn p rp c st
      (hng c (List.mem_cons_self c rest))
      (checkRemote_calm_unchanged (c6Env R) f3 mn p c p st hcsy
        (c6Env_remoteDeleted R c.guid) hfind hpar rfl)
      hfind hpar (c6Env_localDeleted R p.guid)
      (resolveStructureConflict_calm hcuc hpnm hpnm)]
    exact ih (f3 + 2) mn p rp st hsubp hpnm
      (fun d hd => hmemp d (List.mem_cons_of_mem _ hd))
      (by rw [calmList] at hclm; simp only [Bool.and_eq_true] at hclm
          exact hclm.2)
      (fun d hd => hng d (List.mem_cons_of_mem _ hd)) (by omega)

theorem calm_merge_walk (R : TNode) (hndR : (collectGuids R).Nodup) :
    ∀ fuel : Nat,
    (∀ (c : TNode) (st : MState), SubNode c R → c.isRoot = false →
      c.isUserContentRoot = false → calm c = true → needF c ≤ fuel →
      (∀ g, g ∈ collectGuids c → g ∉ st.mergedGuids) →
      twoWayMerge (c6Env R) fuel c c st =
        .ok (calmMerged c,
          { st with mergedGuids := pushGuids c st.mergedGuids })) ∧
    (∀ (cs : List TNode) (p : TNode) (mn : MergedNode) (st : MState),
      SubNode p R → p.needsMerge = false →
      (∀ c ∈ cs, c ∈ p.children) → calmList cs = true →
      (collectGuidsList cs).Nodup →
      (∀ g, g ∈ collectGuidsList cs → g ∉ st.mergedGuids) →
      mn.remoteGuidChanged = false →
      needFL cs + 2 ≤ fuel →
      walkRemoteChildren (c6Env R) fuel mn (some p) p cs st =
        .ok (.mk mn.guid mn.state (mn.mergedChildren ++ calmMergedList cs),
          { st with mergedGuids := pushGuidsList cs st.mergedGuids })) ∧
    (∀ (c p : TNode) (mn : MergedNode) (st : MState),
      SubNode p R → p.needsMerge = false → c ∈ p.children →
      c.isRoot = false → c.isUserContentRoot = false → calm c = true →
      (∀ g, g ∈ collectGuids c → g ∉ st.mergedGuids) →
      mn.remoteGuidChanged = false →
      needF c + 1 ≤ fuel →
      mergeRemoteChildIntoMergedNode (c6Env R) fuel mn (some p) p c st =
        .ok (mn.push (calmMerged c),
          { st with mergedGuids := pushGuids c st.mergedGuids })) := by
  intro fuel
  induction fuel with
  | zero =>
    refine ⟨?_, ?_, ?_⟩
    · intro c st _ _ _ _ hfuel _
      have h4 := needF_ge c
      exact absurd hfuel (by omega)
    · intro cs p mn st _ _ _ _ _ _ _ hfuel
      have h1 := needFL_pos cs
      exact absurd hfuel (by omega)
    · intro c p mn st _ _ _ _ _ _ _ _ hfuel
      have h4 := needF_ge c
      exact absurd hfuel (by omega)
  | succ f ih =>
    obtain ⟨ihTwo, ihWalk, ihChild⟩ := ih
    refine ⟨?_, ?_, ?_⟩
    · -- twoWayMerge on a calm non-root subtree merges it unchanged.
      intro c st hsubc hcroot hcuc hccalm hfuel hdisj
      obtain ⟨hcnm, hcdv, hcsy, hccl⟩ := calm_fields hccalm
      have hndc : (c.guid :: collectGuidsList c.children).Nodup := by
        rw [← collect_head]
        exact nodup_collect_subnode hsubc hndR
      have hgch : c.guid ∉ collectGuidsList c.children := (List.nodup_cons.1 hndc).1
      have hndl : (collectGuidsList c.children).Nodup := (List.nodup_cons.1 hndc).2
      have hgst : c.guid ∉ st.mergedGuids := hdisj c.guid (guid_mem_collect c)
      have hfuel2 : needFL c.children + 2 ≤ f := by
        rw [needF_eq] at hfuel
        omega
      have hins : insMergedGuid c.guid st =
          { st with mergedGuids := c.guid :: st.mergedGuids } := by
        rw [insMergedGuid, insertG, if_neg hgst]
      have hwr := ihWalk c.children c (.mk c.guid ⟨.vunchanged c c, false⟩ [])
        { st with mergedGuids := c.guid :: st.mergedGuids } hsubc hcnm
        (fun d hd => hd) hccl hndl
        (fun g hgl => by
          simp only [List.mem_cons]
          rintro (h1 | h1)
          · exact hgch (h1 ▸ hgl)
          · exact hdisj g (by
              rw [collect_head]
              exact List.mem_cons_of_mem _ hgl) h1)
        (by simp [MergedNode.remoteGuidChanged, MergedNode.state, MergedNode.guid])
        hfuel2
      rw [twoWayMerge, if_pos (hasCompatibleKind_refl c.kind)]
      simp only [resolveValueConflict_calm hcroot hcnm, ne_eq,
        eq_self_iff_true, not_true_eq_false, if_false, hins]
      rw [hwr]
      refine Eq.trans (walkLocal_mem_skip (c6Env R) c.children f _ c (some c) _
        (fun d hd => (mem_pushGuidsList c.children _ d.guid).2
          (Or.inl (mem_collectList_of_mem hd (guid_mem_collect d))))
        (by have := needFL_ge c.children; omega)) ?_
      rw [calmMerged_eq c, pushGuids_eq c]
      rfl
    · -- walkRemoteChildren merges a calm sibling list in order.
      intro cs p mn st hsubp hpnm hcsmem hclm hndl hdisj hrgc hfuel
      cases cs with
      | nil =>
        obtain ⟨f2, rfl⟩ : ∃ f2, f = f2 + 1 := ⟨f - 1, by omega⟩
        rw [walkRemoteChildren, pushGuidsList, calmMergedList, List.append_nil,
          mergedNode_eta]
      | cons c rest =>
        rw [needFL] at hfuel
        have hnfr := needFL_pos rest
        have hcp : c ∈ p.children := hcsmem c (List.mem_cons_self c rest)
        obtain ⟨hcroot, hcuc, hccalm⟩ := calmList_mem hclm (List.mem_cons_self c rest)
        rw [collectGuidsList, List.nodup_append] at hndl
        have hdisjc : ∀ g, g ∈ collectGuids c → g ∉ st.mergedGuids := fun g hg =>
          hdisj g (by rw [collectGuidsList]; exact List.mem_append.2 (Or.inl hg))
        have hchild := ihChild c p mn st hsubp hpnm hcp hcroot hcuc hccalm
          hdisjc hrgc (by omega)
        have hrest := ihWalk rest p (mn.push (calmMerged c))
          { st with mergedGuids := pushGuids c st.mergedGuids } hsubp hpnm
          (fun d hd => hcsmem d (List.mem_cons_of_mem _ hd))
          (by rw [calmList] at hclm
              simp only [Bool.and_eq_true] at hclm
              exact hclm.2)
          hndl.2.1
          (fun g hgl => by
            simp only []
            rw [mem_pushGuids c st.mergedGuids g]
            rintro (h1 | h1)
            · exact hndl.2.2 h1 hgl
            · exact hdisj g (by
                rw [collectGuidsList]
                exact List.mem_append.2 (Or.inr hgl)) h1)
          (by rw [remoteGuidChanged_push]; exact hrgc)
          (by omega)
        rw [walkRemoteChildren, hchild]
        refine Eq.trans hrest ?_
        rw [push_guid, push_state, push_children, calmMergedList, pushGuidsList,
          List.append_assoc, List.singleton_append]
    · -- mergeRemoteChildIntoMergedNode merges one calm child.
      intro c p mn st hsubp hpnm hcp hcroot hcuc hccalm hdisj hrgc hfuel
      obtain ⟨hcnm, hcdv, hcsy, hccl⟩ := calm_fields hccalm
      have hsubc : SubNode c R := subnode_trans (subnode_of_child hcp) hsubp
      have hgst : c.guid ∉ st.mergedGuids := hdisj c.guid (guid_mem_collect c)
      have hfind : findNode (c6Env R).localTree.root c.guid = some c := by
        rw [c6Env_localRoot]
        exact findNode_subnode hsubc hndR
      have hpar : findParent (c6Env R).localTree.root c.guid = some p := by
        rw [c6Env_localRoot]
        exact findParent_subnode hsubp hcp hndR
      obtain ⟨f2, rfl⟩ : ∃ f2, f = f2 + 1 := ⟨f - 1, by
        have := needF_ge c
        omega⟩
      have htwo := ihTwo c st hsubc hcroot hcuc hccalm (by omega) hdisj
      rw [mergeRemoteChildIntoMergedNode, if_neg hgst]
      simp only [checkLocal_calm_unchanged (c6Env R) f2 mn p c p st hcsy
          (c6Env_localDeleted R c.guid) hfind hpar rfl,
        hfind, hpar, c6Env_remoteDeleted,
        resolveStructureConflict_calm hcuc hpnm hpnm, htwo, hcdv, hrgc,
        Bool.or_self, Bool.false_eq_true, if_false, reduceIte, reduceCtorEq]

theorem twoWayMerge_calm_root (R : TNode) (hroot : R.isRoot = true)
    (hcalm : calm R = true) (hnd : (collectGuids R).Nodup) :
    ∀ f, needF R ≤ f + 1 →
    twoWayMerge (c6Env R) (f + 1) R R initState =
      .ok (.mk R.guid ⟨.vlocal R (some R), false⟩ (calmMergedList R.children),
        ⟨pushGuids R [], [], [], .zero, [], []⟩) := by
  intro f hfuel
  obtain ⟨hRnm, hRdv, hRsy, hRcl⟩ := calm_fields hcalm
  obtain ⟨ihTwo, ihWalk, ihChild⟩ := calm_merge_walk R hnd f
  have hnd2 : (R.guid :: collectGuidsList R.children).Nodup := by
    rw [← collect_head]
    exact hnd
  have hgR : R.guid ∉ collectGuidsList R.children := (List.nodup_cons.1 hnd2).1
  have hins : insMergedGuid R.guid initState =
      (⟨[R.guid], [], [], .zero, [], []⟩ : MState) := by
    simp [insMergedGuid, insertG, initState]
  have hnoop := walkLocal_calm_noop R hnd R.children f
    (.mk R.guid ⟨.vlocal R (some R), false⟩ [])
    R (some R) (⟨[R.guid], [], [], .zero, [], []⟩ : MState)
    (SubNode.refl R) hRnm (fun c hc => hc) hRcl
    (fun c hc => by
      simp only [List.mem_singleton]
      intro he
      exact hgR (he ▸ mem_collectList_of_mem hc (guid_mem_collect c)))
    (by have := needFL_ge R.children
        rw [needF_eq] at hfuel
        omega)
  have hwr := ihWalk R.children R (.mk R.guid ⟨.vlocal R (some R), false⟩ [])
    (⟨[R.guid], [], [], .zero, [], []⟩ : MState)
    (SubNode.refl R) hRnm (fun c hc => hc) hRcl (List.nodup_cons.1 hnd2).2
    (fun g hgl => by
      simp only [List.mem_singleton]
      intro he
      exact hgR (he ▸ hgl))
    (by simp [MergedNode.remoteGuidChanged, MergedNode.state, MergedNode.guid])
    (by rw [needF_eq] at hfuel
        omega)
  rw [twoWayMerge, if_pos (hasCompatibleKind_refl R.kind)]
  simp only [resolveValueConflict_root hroot, ne_eq, eq_self_iff_true,
    not_true_eq_false, if_false, hins]
  rw [hnoop]
  refine Eq.trans hwr ?_
  rw [pushGuids_eq R]
  rfl

theorem merge_calm_eq (R : TNode) (hroot : R.isRoot = true)
    (hcalm : calm R = true) (hnd : (collectGuids R).Nodup)
    (fuel : Nat) (hfuel : needF R ≤ fuel) :
    merge (c6Env R) fuel =
      .ok (.mk R.guid ⟨.vlocal R (some R), false⟩ (calmMergedList R.children),
        ⟨pushGuids R [], [], [], .zero, [], []⟩) := by
  obtain ⟨f, rfl⟩ : ∃ f, fuel = f + 1 := ⟨fuel - 1, by
    have := needF_ge R
    omega⟩
  rw [merge]
  simp only [c6Env_localRoot, c6Env_remoteRoot]
  rw [twoWayMerge_calm_root R hroot hcalm hnd f hfuel]
  rfl

/-- C6 counterexample: merging the single-root calm tree (`needs_merge` false
everywhere) with itself returns `Ok`, but the merged root's MergeState is
`Local`, not `Unchanged`: the `remote.is_root()` branch of
`resolve_value_conflict` forces `(Local, Local)` before the `needs_merge`
table is consulted, so the claim "every merged node's MergeState is
Unchanged" fails at the root. -/
theorem c6_counterexample :
    (match merge (envOf ⟨rootN 1 [], []⟩ ⟨rootN 1 [], []⟩) 5 with
     | .ok (mn, _) =>
       (match mn.state.value with
        | .vunchanged _ _ => true
        | _ => false)
     | .error _ => true) = false := rfl

/-- C6: corrected.  Merging a well-formed calm tree `T` with itself — every
node has `needs_merge` false, is non-diverged and syncable, guids are unique,
only the top node is a root and no child is a user content root, and there
are no tombstones — returns a merged tree that mirrors `T` node for node with
no `new_structure` flags, every node's MergeState `Unchanged` *except the
root, whose MergeState is `Local`*; the deletion sets are empty (so
`deletions()` yields nothing) and the structure counts are all zero. -/
theorem c6_identical_calm_trees (R : TNode) (fuel : Nat)
    (hroot : R.isRoot = true) (hcalm : calm R = true)
    (hnd : (collectGuids R).Nodup) (hfuel : needF R ≤ fuel) :
    merge (envOf ⟨R, []⟩ ⟨R, []⟩) fuel =
      .ok (.mk R.guid ⟨.vlocal R (some R), false⟩ (calmMergedList R.children),
        ⟨pushGuids R [], [], [], .zero, [], []⟩) ∧
    (∀ mn st, merge (envOf ⟨R, []⟩ ⟨R, []⟩) fuel = .ok (mn, st) →
      deletionsList st ⟨R, []⟩ = [] ∧ st.structureCounts = .zero) := by
  have h : merge (envOf ⟨R, []⟩ ⟨R, []⟩) fuel =
      .ok (.mk R.guid ⟨.vlocal R (some R), false⟩ (calmMergedList R.children),
        ⟨pushGuids R [], [], [], .zero, [], []⟩) :=
    merge_calm_eq R hroot hcalm hnd fuel hfuel
  refine ⟨h, ?_⟩
  intro mn st hm
  rw [h, Except.ok.injEq, Prod.mk.injEq] at hm
  obtain ⟨-, hst⟩ := hm
  rw [← hst]
  exact ⟨rfl, rfl⟩

/-- A concrete calm three-level tree for the C6 witness. -/
def c6wR : TNode :=
  rootN 1 [folderN 2 false [bookmarkN 3 false], bookmarkN 4 false]

/-- Witness for C6: the amended theorem applied to a concrete calm tree with
a nested folder, at fuel 30. -/
theorem c6_identical_calm_trees_witness :
    merge (envOf ⟨c6wR, []⟩ ⟨c6wR, []⟩) 30 =
      .ok (.mk c6wR.guid ⟨.vlocal c6wR (some c6wR), false⟩
            (calmMergedList c6wR.children),
        ⟨pushGuids c6wR [], [], [], .zero, [], []⟩) ∧
    (∀ mn st, merge (envOf ⟨c6wR, []⟩ ⟨c6wR, []⟩) 30 = .ok (mn, st) →
      deletionsList st ⟨c6wR, []⟩ = [] ∧ st.structureCounts = .zero) :=
  c6_identical_calm_trees c6wR 30 rfl (by decide) (by decide) (by decide)

end Dogear
